import Mathlib

/-!
Shallow embedding of the nvme-lint table pipeline (nvme_lint/transformer.py and
nvme_lint/parser.py) in Lean 4, together with theorems settling the frozen
claims about its specification.

Python strings are modelled as Lean `String` (operated on through `String.data`
with hand-rolled helpers mirroring the exact CPython operations used by the
source: `str.split`, `str.strip`, `int(...)`, and the three anchored regular
expressions).  Python exceptions are modelled with `Except String`.  Logger
calls are modelled as returned warning lists where a claim observes them, and
are dropped where no claim does.
-/

/-- Model of the Python substring test `needle in hay`. -/
def listContainsSub (needle hay : List Char) : Bool :=
  hay.tails.any (fun t => needle.isPrefixOf t)

/-- `needle in hay` for Python strings. -/
def strContains (needle hay : String) : Bool :=
  listContainsSub needle.data hay.data

/-- Helper for the splitters: prepend a character to the first fragment. -/
def consHeadSplit (c : Char) : List (List Char) → List (List Char)
  | [] => [[c]]
  | r :: rs => (c :: r) :: rs

/-- Model of Python `s.split(sep)` for a one-character separator
(always returns at least one fragment, fragments may be empty). -/
def splitChar (sep : Char) : List Char → List (List Char)
  | [] => [[]]
  | c :: rest =>
    if c = sep then [] :: splitChar sep rest
    else consHeadSplit c (splitChar sep rest)

/-- Model of Python `s.split("to")`: split on every non-overlapping
occurrence of the two-character separator `"to"`, scanning left to right. -/
def splitTo : List Char → List (List Char)
  | 't' :: 'o' :: rest => [] :: splitTo rest
  | c :: rest => consHeadSplit c (splitTo rest)
  | [] => [[]]

/-- Decimal value of a digit list, as accumulated by `int(...)`. -/
def digitsToNat (cs : List Char) : Nat :=
  cs.foldl (fun acc c => 10 * acc + (c.toNat - 48)) 0

/-- Model of Python `str.strip()` (no argument): remove leading and trailing
whitespace. -/
def pyTrim (cs : List Char) : List Char :=
  ((cs.dropWhile Char.isWhitespace).reverse.dropWhile Char.isWhitespace).reverse

/-- Model of Python `int(s)` on a cell string: optional surrounding
whitespace, optional sign, then one or more decimal digits; any other shape
raises `ValueError`, modelled as `none`.  (PEP 515 underscore grouping is not
modelled; the cells of interest never contain it.) -/
def pyIntChars (cs0 : List Char) : Option Int :=
  match pyTrim cs0 with
  | [] => none
  | c :: rest =>
    if c = '-' then
      if !rest.isEmpty && rest.all Char.isDigit then
        some (-(digitsToNat rest : Int))
      else none
    else if c = '+' then
      if !rest.isEmpty && rest.all Char.isDigit then
        some ((digitsToNat rest : Int))
      else none
    else if (c :: rest).all Char.isDigit then
      some ((digitsToNat (c :: rest) : Int))
    else none

/-- `int(s)` on a Lean `String`. -/
def pyInt (s : String) : Option Int := pyIntChars s.data

/-- All-or-nothing map, modelling a Python list comprehension whose body may
raise (`[int(b) for b in parts]`): the first failure aborts the whole list. -/
def mapOption (f : α → Option β) : List α → Option (List β)
  | [] => some []
  | x :: xs =>
    match f x with
    | none => none
    | some y =>
      match mapOption f xs with
      | none => none
      | some ys => some (y :: ys)

/-- Sequential map in `Except`, modelling a Python loop whose body may raise. -/
def mapExcept (f : α → Except String β) : List α → Except String (List β)
  | [] => .ok []
  | x :: xs =>
    match f x with
    | .error e => .error e
    | .ok y =>
      match mapExcept f xs with
      | .error e => .error e
      | .ok ys => .ok (y :: ys)

/-- Sequential filter in `Except`, modelling a Python list comprehension whose
predicate may raise. -/
def filterExcept (p : α → Except String Bool) : List α → Except String (List α)
  | [] => .ok []
  | x :: xs =>
    match p x with
    | .error e => .error e
    | .ok b =>
      match filterExcept p xs with
      | .error e => .error e
      | .ok ys => .ok (if b then x :: ys else ys)

/-- Sequential fold in `Except`, modelling a Python loop carrying state whose
body may raise. -/
def foldlExcept (f : σ → α → Except String σ) : σ → List α → Except String σ
  | s, [] => .ok s
  | s, x :: xs =>
    match f s x with
    | .error e => .error e
    | .ok s2 => foldlExcept f s2 xs

/-- Character class of the source regexes `[0-9A-F]` (transformer.py lines
16-17): decimal digits and uppercase A-F. -/
def isHexUC (c : Char) : Bool :=
  c.isDigit || ('A' ≤ c && c ≤ 'F')

/-- Model of `re.compile(r"^[0-9A-F]+h$").match(s)` (transformer.py line 16):
one or more `[0-9A-F]` then a final literal `h`. -/
def hexValueMatch (s : String) : Bool :=
  let cs := s.data
  let ds := cs.takeWhile isHexUC
  !ds.isEmpty && decide (cs.drop ds.length = ['h'])

/-- Model of `re.compile(r"^[0-9A-F]+h to [0-9A-F]+h$").match(s)`
(transformer.py line 17). -/
def hexRangeMatch (s : String) : Bool :=
  let cs := s.data
  let d1 := cs.takeWhile isHexUC
  !d1.isEmpty &&
    (let r1 := cs.drop d1.length
     decide (r1.take 5 = ['h', ' ', 't', 'o', ' ']) &&
       (let r2 := r1.drop 5
        let d2 := r2.takeWhile isHexUC
        !d2.isEmpty && decide (r2.drop d2.length = ['h'])))

/-- Model of `re.compile(r"\d+ to \d+").match(s)` (parser.py line 104):
an unanchored-at-the-end prefix match. -/
def matchValueRange (cs : List Char) : Bool :=
  let d1 := cs.takeWhile Char.isDigit
  !d1.isEmpty &&
    (let r1 := cs.drop d1.length
     decide (r1.take 4 = [' ', 't', 'o', ' ']) &&
       !((r1.drop 4).takeWhile Char.isDigit).isEmpty)

/-- Model of `re.compile(r"\d+h").match(s)` (parser.py line 105): a prefix
match of one or more digits followed by `h`. -/
def matchHexDec (cs : List Char) : Bool :=
  let d1 := cs.takeWhile Char.isDigit
  !d1.isEmpty && decide ((cs.drop d1.length).head? = some 'h')

/-- Model of Python `s.strip("h")`: remove every leading and trailing `h`. -/
def pyStripH (s : String) : String :=
  ⟨((s.data.dropWhile (fun c => c = 'h')).reverse.dropWhile
      (fun c => c = 'h')).reverse⟩

/-! ## `Table.calculate_bits_and_bytes` (transformer.py lines 115-123) -/

/-- An element of a pre-consolidation `bits`/`bytes` cell value: the Row
Parser stores either a list of integers or (fallback branch, parser.py line
128) a list of strings under the heading. -/
inductive BVal where
  | i (n : Int)
  | s (st : String)
deriving DecidableEq, Repr

/-- A `bits`/`bytes` value after `calculate_bits_and_bytes` has visited the
row: either still the original list, or a consolidated single integer. -/
inductive BValue where
  | list (l : List BVal)
  | int (n : Int)
deriving DecidableEq, Repr

/-- `isinstance(value, int)` for a `BVal`. -/
def isIntVal : BVal → Bool
  | .i _ => true
  | .s _ => false

/-- Per-row body of `Table.calculate_bits_and_bytes` (transformer.py lines
118-123): a list with a non-integer member is logged at debug and left
untouched; a singleton becomes `1`; otherwise `row[heading][0] -
row[heading][1] + 1` (an empty all-integer list raises `IndexError`). -/
def calculateOne (l : List BVal) : Except String BValue :=
  if !(l.all isIntVal) then .ok (.list l)
  else if l.length = 1 then .ok (.int 1)
  else
    match l.get? 0, l.get? 1 with
    | some (.i a), some (.i b) => .ok (.int (a - b + 1))
    | _, _ => .error "IndexError"

/-- The row loop of `Table.calculate_bits_and_bytes` (transformer.py line
117): rows are visited in order; a raise aborts the loop, leaving the current
and the remaining rows untouched (the caller catches and keeps the table). -/
def calcRows : List (List BVal) → List BValue × Bool
  | [] => ([], false)
  | l :: rest =>
    match calculateOne l with
    | .ok v =>
      let r := calcRows rest
      (v :: r.1, r.2)
    | .error _ => (.list l :: rest.map .list, true)

/-! ## `Table.check_sum` (transformer.py lines 135-139) -/

/-- Exact power-of-two test on `Nat` (`0` is not a power of two). -/
def isPowTwo : Nat → Bool
  | 0 => false
  | 1 => true
  | n + 2 => (n + 2) % 2 = 0 && isPowTwo ((n + 2) / 2)
decreasing_by exact Nat.div_lt_self (Nat.succ_pos _) (by omega)

/-- Model of `Table.check_sum` (transformer.py lines 135-139):
`row_sum = sum(row[heading] for row in self.rows)`, then
`math.log(row_sum, 2).is_integer()`.  `math.log` raises `ValueError`
whenever its argument is not positive — there is no guard in the source —
modelled as `.error`.  For a positive sum the floating-point `is_integer`
test is modelled as the exact power-of-two predicate.  Returns the list of
emitted warnings. -/
def checkSum (title heading : String) (widths : List Int) : Except String (List String) :=
  let rowSum := widths.sum
  if rowSum ≤ 0 then .error "ValueError: math domain error"
  else .ok (if isPowTwo rowSum.toNat then []
            else [title ++ ": sum of " ++ heading ++ " is not a power of 2"])

/-! ## `Table.check_order` (transformer.py lines 125-133) -/

/-- A row as seen by `check_order`: a dict whose `bits`/`bytes` keys hold
integer-range lists (modelled as an insertion-ordered association list). -/
def ORow := List (String × List Int)
deriving DecidableEq, Repr

/-- `row[k][0]`: `KeyError` when the key is missing, `IndexError` when the
range list is empty. -/
def rowKeyHigh (r : ORow) (k : String) : Except String Int :=
  match r.find? (fun p => p.1 = k) with
  | none => .error "KeyError"
  | some p =>
    match p.2.head? with
    | none => .error "IndexError"
    | some v => .ok v

/-- The table state observed by `check_order`. -/
structure OTable where
  title : String
  headings : List String
  rows : List ORow
deriving DecidableEq, Repr

/-- The decoration pass of CPython `sorted(rows, key=...)`: every row is
paired with its sort key before sorting, raising right there if a key is
missing. -/
def decorate (k : String) (rows : List ORow) : Except String (List (Int × ORow)) :=
  mapExcept (fun r => (rowKeyHigh r k).map (fun n => (n, r))) rows

/-- One branch body of `check_order`, resumed: stable-sort the decorated rows
(`reverse` selects the descending comparison) and report whether the order
changed. -/
def checkOrderWith (k : String) (reverse : Bool) (rows : List ORow) :
    Except String (List ORow × Bool) :=
  match decorate k rows with
  | .error e => .error e
  | .ok decorated =>
    let le : Int × ORow → Int × ORow → Bool :=
      if reverse then fun a b => decide (b.1 ≤ a.1) else fun a b => decide (a.1 ≤ b.1)
    let sortedRows := (decorated.mergeSort le).map (fun p => p.2)
    if sortedRows ≠ rows then .ok (sortedRows, true) else .ok (rows, false)

/-- The `elif` branch of `Table.check_order` (transformer.py lines 130-132):
sort ascending by `row["bytes"][0]` and warn when the sorted order differs
from the current one.  Reached exactly when the whole `bits` compound
condition evaluated to false. -/
def checkOrderBytes (t : OTable) : Except String (OTable × List String) :=
  if "bytes" ∈ t.headings ∧ 1 < t.rows.length then
    match checkOrderWith "bytes" false t.rows with
    | .error e => .error e
    | .ok (rs, warned) =>
      if warned then
        .ok ({ t with rows := rs }, [t.title ++ ": bytes are in wrong order"])
      else .ok (t, [])
  else .ok (t, [])

/-- Model of `Table.check_order` (transformer.py lines 125-133).  The `bits`
branch fires only when the FULL compound condition holds: `"bits"` is a
heading, there is more than one row, AND the descending sort by
`row["bits"][0]` differs from the current order.  In every other case --
including a table whose `bits` column is already sorted -- evaluation falls
through to the `elif` `bytes` branch, exactly as Python's `elif` does.
Short-circuit evaluation: with at most one row no key is ever touched. -/
def checkOrder (t : OTable) : Except String (OTable × List String) :=
  if "bits" ∈ t.headings ∧ 1 < t.rows.length then
    match checkOrderWith "bits" true t.rows with
    | .error e => .error e
    | .ok (rs, warned) =>
      if warned then
        .ok ({ t with rows := rs }, [t.title ++ ": bits are in wrong order"])
      else checkOrderBytes t
  else checkOrderBytes t

/-- A two-row table carrying both a `bits` and a `bytes` heading, sorted
descending by `bits` but not ascending by `bytes`. -/
def c5Table : OTable :=
  OTable.mk "t" ["bits", "bytes"]
    [[("bits", [1]), ("bytes", [5])], [("bits", [0]), ("bytes", [3])]]

/-- `c5Table` after `check_order` re-sorts its rows ascending by `bytes`. -/
def c5TableSwapped : OTable :=
  OTable.mk "t" ["bits", "bytes"]
    [[("bits", [0]), ("bytes", [3])], [("bits", [1]), ("bytes", [5])]]

/-! ## `collect_types` (transformer.py lines 280-308) -/

/-- A transformed table as built by `transform` (transformer.py lines
253-258), restricted to the fields `collect_types` reads or writes.  The
`c_type`/`spec_type` dict keys are modelled with `Option`: `none` means the
key has been deleted (`transform` always creates both keys). -/
structure TTable where
  title : String
  number : Int
  c_type : Option String
  spec_type : Option String
deriving DecidableEq, Repr

/-- Aggregate output of `collect_types` for one group. -/
structure GroupTypes where
  tables : List TTable
  spec_type : String
  c_type : String
deriving DecidableEq, Repr

/-- Per-group body of `collect_types` (transformer.py lines 283-306).
`table["c_type"] == "enum"` is modelled as `t.c_type = some "enum"` (for
tables produced by `transform` the key is always present; a missing key
would raise `KeyError` in Python, a case no claim exercises). -/
def collectTypesGroup (tables : List TTable) : GroupTypes :=
  let spec_type :=
    if tables.any (fun t => strContains "command dword" t.title) then "command" else ""
  let c_type :=
    if tables.all (fun t => t.c_type = some "enum") then "enum"
    else if tables.all (fun t => t.c_type = some "struct") then "struct"
    else "skip"
  { tables := tables.map (fun t => { t with c_type := none, spec_type := none }),
    spec_type := spec_type,
    c_type := c_type }

/-- `collect_types` over the whole group dict (modelled as an ordered list of
bindings). -/
def collectTypes (groups : List (String × List TTable)) : List (String × GroupTypes) :=
  groups.map (fun g => (g.1, collectTypesGroup g.2))

/-! ## `process_commands` and `gen_empty_commands` (transformer.py 311-349) -/

/-- A row of a command table as read by `process_commands`: only `bits`
(consolidated to an integer by the earlier pipeline) and `name` are
observed or produced. -/
structure CmdRow where
  bits : Int
  name : String
deriving DecidableEq, Repr

/-- A transformed table as stored in a command group, with the fields
`process_commands` and `gen_empty_commands` touch.  The optional `type` key
models `table.update({"type": ...})`: `none` until set. -/
structure CmdTable where
  headings : List String
  number : Int
  rows : List CmdRow
  title : String
  type : Option Int
deriving DecidableEq, Repr

/-- A group after `collect_types` (transformer.py lines 304-306), with the
fields `process_commands` reads and writes. -/
structure CGroup where
  tables : List CmdTable
  spec_type : String
  c_type : String
deriving DecidableEq, Repr

/-- `gen_empty_commands` (transformer.py lines 338-349): sixteen synthetic
32-bit placeholder command slots named `cdw0` .. `cdw15`. -/
def genEmptyCommands : List CmdTable :=
  (List.range 16).map (fun i =>
    { headings := ["bits", "name"],
      number := -1,
      rows := [{ bits := 32, name := "cdw" ++ toString i }],
      title := "",
      type := some 32 })

/-- Model of `re.findall(re.compile(r"dword (?P<number>\d+)"), title)`:
scan left to right; at each position either match the literal `dword `
followed by a maximal non-empty digit run (capturing the digits and resuming
after them), or advance one character.  The fuel argument (initialised to the
string length, an upper bound on the number of scan steps, each of which
consumes at least one character) only makes the recursion structural. -/
def findDwordAux : Nat → List Char → List String
  | 0, _ => []
  | fuel + 1, cs =>
    match cs with
    | 'd' :: 'w' :: 'o' :: 'r' :: 'd' :: ' ' :: rest =>
      let ds := rest.takeWhile Char.isDigit
      if ds.isEmpty then findDwordAux fuel ('w' :: 'o' :: 'r' :: 'd' :: ' ' :: rest)
      else String.mk ds :: findDwordAux fuel (rest.drop ds.length)
    | _ :: rest => findDwordAux fuel rest
    | [] => []

/-- `re.findall` of `dword (\d+)` over a title. -/
def findDword (cs : List Char) : List String := findDwordAux cs.length cs

/-- `int(s)` on a captured digit group (always a non-empty digit string). -/
def digitGroupVal (s : String) : Nat := digitsToNat s.data

/-- `commands[i] = t` on a Python list: `IndexError` out of range. -/
def setSlot (l : List CmdTable) (i : Nat) (t : CmdTable) : Except String (List CmdTable) :=
  if i < l.length then .ok (l.set i t) else .error "IndexError"

/-- `commands[i]` on a Python list: `IndexError` out of range. -/
def getSlot (l : List CmdTable) (i : Nat) : Except String CmdTable :=
  match l[i]? with
  | some t => .ok t
  | none => .error "IndexError"

/-- The per-table body of the `process_commands` loop (transformer.py lines
318-334).  Returns the updated 16-slot array and the warnings emitted for
this table.  `commands[int(matches[1])]["title"] = "skip"` mutates whatever
table object currently occupies that slot, so it is modelled as a read,
field update and write-back of that slot. -/
def processTable (commands : List CmdTable) (t : CmdTable) :
    Except String (List CmdTable × List String) :=
  let ms := findDword t.title.data
  if ms.length = 2 then
    if (t.rows.map (fun r => r.bits)).sum = 64 then
      match setSlot commands (digitGroupVal (ms.getD 0 "")) { t with type := some 64 } with
      | .error e => .error e
      | .ok c1 =>
        match getSlot c1 (digitGroupVal (ms.getD 1 "")) with
        | .error e => .error e
        | .ok occupant =>
          match setSlot c1 (digitGroupVal (ms.getD 1 "")) { occupant with title := "skip" } with
          | .error e => .error e
          | .ok c2 => .ok (c2, [])
    else
      .ok (commands,
        ["Figure " ++ toString t.number ++ ": " ++ t.title ++ " bits doesnt sum up to 64"])
  else if ms.length = 1 then
    if (t.rows.map (fun r => r.bits)).sum = 32 then
      match setSlot commands (digitGroupVal (ms.getD 0 "")) { t with type := some 32 } with
      | .error e => .error e
      | .ok c1 => .ok (c1, [])
    else
      .ok (commands,
        ["Figure " ++ toString t.number ++ ": " ++ t.title ++ " bits doesnt sum up to 32"])
  else .ok (commands, [])

/-- Per-group body of `process_commands` (transformer.py lines 313-335): for
a group whose aggregate `spec_type` is `"command"`, rebuild `tables` as the
16-slot array seeded by `gen_empty_commands`; other groups are untouched.
Returns the group and the emitted warnings. -/
def processGroup (content : CGroup) : Except String (CGroup × List String) :=
  if content.spec_type = "command" then
    match foldlExcept
        (fun st tb =>
          match processTable st.1 tb with
          | .error e => .error e
          | .ok r => .ok (r.1, st.2 ++ r.2))
        (genEmptyCommands, ([] : List String)) content.tables with
    | .error e => .error e
    | .ok fin => .ok ({ content with tables := fin.1 }, fin.2)
  else .ok (content, [])

/-- `process_commands` over the whole group dict. -/
def processCommands (groups : List (String × CGroup)) :
    Except String (List (String × CGroup) × List String) :=
  match mapExcept (fun g => (processGroup g.2).map (fun r => ((g.1, r.1), r.2))) groups with
  | .error e => .error e
  | .ok l => .ok (l.map (fun p => p.1), (l.map (fun p => p.2)).flatten)

/-! ## `parse_table` NOTES handling (parser.py lines 23-36) -/

/-- `table.tail(1).to_numpy()[0][0].split(":")[0]` (parser.py line 28): the
text before the first `:` of the first cell of the last row.  (An empty grid
would raise in pandas; the claims only concern non-empty tables.) -/
def firstWordOfLastRow (table : List (List String)) : String :=
  String.mk ((splitChar ':' ((table.getLastD []).headD "").data).headD [])

/-- The NOTES step of `parse_table` (parser.py lines 28-32): if the text
before `:` in the first cell of the last row contains `NOTE` or `Note`, drop
that row, warning unless the text is exactly `NOTES`.  Returns the remaining
grid and the warnings. -/
def stripNotesRow (table : List (List String)) : List (List String) × List String :=
  let fw := firstWordOfLastRow table
  if strContains "NOTE" fw || strContains "Note" fw then
    (table.dropLast, if fw ≠ "NOTES" then [fw ++ " should be NOTES"] else [])
  else (table, [])

/-! ## `parse_row` (parser.py lines 96-144) -/

/-- A value stored in a field record by the Row Parser: a raw or processed
string, an integer-range list (`bits`/`bytes`), or the colon-split string
list of the debug fallback (parser.py line 128). -/
inductive FVal where
  | str (s : String)
  | ints (l : List Int)
  | strs (l : List String)
deriving DecidableEq, Repr

/-- Result of the `bits`/`bytes` cell branch: the value stored (if any) and
the warnings emitted. -/
structure CellParse where
  value : Option FVal
  warnings : List String
deriving DecidableEq, Repr

/-- `sorted(l, reverse=True)` for integers. -/
def sortIntDesc (l : List Int) : List Int :=
  l.mergeSort (fun a b => decide (b ≤ a))

/-- The `bits`/`bytes` branch of `parse_row` (parser.py lines 109-128).
`bs = [int(b) for b in cp.split(":")]`; on success, a two-element ascending
list is warned about and sorted descending (for a two-element list
`bs.sort(reverse=True)` is the swap); on `ValueError` the fallbacks fire in
order: a `"N to M"` range is split on `"to"`, parsed and sorted descending
(a failing `int` there re-raises, modelled as `.error`); a `"Nh"` value is
warned about and dropped; an empty cell is logged at debug and dropped;
anything else is stored as the colon-split string list. -/
def parseBitsCell (heading cp : String) : Except String CellParse :=
  match mapOption pyIntChars (splitChar ':' cp.data) with
  | some bs =>
    match bs with
    | [a, b] =>
      if a < b then
        .ok { value := some (.ints [b, a]),
              warnings := [heading ++ " range is in wrong order: " ++ cp] }
      else .ok { value := some (.ints [a, b]), warnings := [] }
    | _ => .ok { value := some (.ints bs), warnings := [] }
  | none =>
    if matchValueRange cp.data then
      match mapOption pyIntChars (splitTo cp.data) with
      | some ns =>
        .ok { value := some (.ints (sortIntDesc ns)),
              warnings := [heading ++ " range is of the wrong format: " ++ cp] }
      | none => .error "ValueError"
    else if matchHexDec cp.data then
      .ok { value := none,
            warnings := [heading ++ " value is of the wrong type: " ++ cp] }
    else if cp.data.isEmpty then
      .ok { value := none, warnings := [] }
    else
      .ok { value := some (.strs ((splitChar ':' cp.data).map String.mk)),
            warnings := [] }

/-! ## `parse_headings`, `parse_row`, `parse_content` (parser.py 39-144) -/

/-- `parse_headings` (parser.py lines 39-62): drop empty cells, lowercase and
strip newlines, rename `bit`/`byte` to `bits`/`bytes` (with a warning, not
modelled), collapse any heading containing `value` (other than `value`
itself) to `value`.  (`None` cells cannot occur here: the extractor yields
strings.) -/
def parseHeadings (row : List String) : List String :=
  let hs := (row.filter (fun h => h ≠ "")).map (fun h => (h.toLower).replace "\n" "")
  let hs := hs.map (fun h => if h = "bit" then "bits" else h)
  let hs := hs.map (fun h => if h = "byte" then "bytes" else h)
  hs.map (fun h => if h ≠ "value" ∧ strContains "value" h then "value" else h)

/-- A field record as built by `parse_row`: the heading-keyed fields (in
insertion order) and the `"children"` list, modelled as a separate component
(in the source it is the dict entry `"children"`, created first and never
overwritten by a heading since no caption column is named `children`). -/
inductive FieldRecord where
  | mk : List (String × FVal) → List FieldRecord → FieldRecord

/-- The heading-keyed fields of a record. -/
def FieldRecord.fields : FieldRecord → List (String × FVal)
  | .mk f _ => f

/-- The `"children"` list of a record. -/
def FieldRecord.children : FieldRecord → List FieldRecord
  | .mk _ c => c

/-- Python dict assignment `d[k] = v`: overwrite in place if the key exists,
otherwise append. -/
def dictSet (fields : List (String × FVal)) (k : String) (v : FVal) :
    List (String × FVal) :=
  if fields.any (fun p => p.1 = k) then
    fields.map (fun p => if p.1 = k then (k, v) else p)
  else fields ++ [(k, v)]

/-- Model of `re.match(r"(?P<brief>.+?)\((?P<name>.+?)\):(?P<verbose>.+)", s)`
(parser.py lines 100-102): lazy groups with backtracking — the least `i ≥ 1`
with `s[i] = '('` such that after it there is a least `j ≥ 1` with
`s[i+1+j] = ')'`, `s[i+1+j+1] = ':'` and at least one character after.
Returns (brief, name, verbose). -/
def matchNBV (cs : List Char) : Option (List Char × List Char × List Char) :=
  (List.range cs.length).findSome? (fun i =>
    if 1 ≤ i ∧ cs.get? i = some '(' then
      let rest := cs.drop (i + 1)
      (List.range rest.length).findSome? (fun j =>
        if 1 ≤ j ∧ rest.get? j = some ')' ∧ rest.get? (j + 1) = some ':' ∧
            rest.drop (j + 2) ≠ [] then
          some (cs.take i, rest.take j, rest.drop (j + 2))
        else none)
    else none)

/-- Model of `re.match(r"(?P<brief>.+?):(?P<verbose>.+)", s)` (parser.py line
103): the least `i ≥ 1` with `s[i] = ':'` and at least one character after. -/
def matchBV (cs : List Char) : Option (List Char × List Char) :=
  (List.range cs.length).findSome? (fun i =>
    if 1 ≤ i ∧ cs.get? i = some ':' ∧ cs.drop (i + 1) ≠ [] then
      some (cs.take i, cs.drop (i + 1))
    else none)

/-- `.strip()` then `.lower()` on a char list. -/
def stripLower (cs : List Char) : String := String.mk ((pyTrim cs).map Char.toLower)

/-- One heading iteration of `parse_row` (parser.py lines 107-142) acting on
the fields accumulator.  `row[start_index + i]` raises `IndexError` when the
tuple is too short.  Warnings (logger calls) are not observed by any claim
about `parse_row` as a whole and are dropped here. -/
def parseRowStep (row : List String) (startIndex : Nat)
    (fields : List (String × FVal)) (ih : Nat × String) :
    Except String (List (String × FVal)) :=
  let heading := ih.2
  match row.get? (startIndex + ih.1) with
  | none => .error "IndexError"
  | some cp =>
    if heading ∈ ["bits", "bytes"] then
      match parseBitsCell heading cp with
      | .error e => .error e
      | .ok res =>
        match res.value with
        | some v => .ok (dictSet fields heading v)
        | none => .ok fields
    else
      let cls := cp.data.filter (fun c => c ≠ '\n')
      match matchNBV cls with
      | some (b, n, v) =>
        .ok (dictSet (dictSet (dictSet fields
              "name" (.str (stripLower n)))
              "brief" (.str (String.mk (pyTrim b))))
              "verbose" (.str (String.mk (pyTrim v))))
      | none =>
        match matchBV cls with
        | some (b, v) =>
          .ok (dictSet (dictSet fields
                "brief" (.str (String.mk (pyTrim b))))
                "verbose" (.str (String.mk (pyTrim v))))
        | none => .ok (dictSet fields heading (.str cp))

/-- `parse_row` (parser.py lines 96-144): start from `{"children": []}` and
fold the headings in order. -/
def parseRow (row : List String) (headings : List String) (startIndex : Nat) :
    Except String FieldRecord :=
  match foldlExcept (parseRowStep row startIndex) [] headings.enum with
  | .error e => .error e
  | .ok fields => .ok (.mk fields [])

/-- The loop state of `parse_content` (parser.py lines 65-93): the top-level
records produced so far and the pending secondary headings (`None` after a
reset). -/
structure PCState where
  output : List FieldRecord
  subheadings : Option (List String)

/-- `output[-1]["children"].append(c)` — only ever called with a non-empty
output; on an empty list this helper is the identity (the source guards with
`if output:`). -/
def appendChildToLast (l : List FieldRecord) (c : FieldRecord) : List FieldRecord :=
  match l.getLast? with
  | none => l
  | some last => l.dropLast ++ [FieldRecord.mk last.fields (last.children ++ [c])]

/-- One row iteration of `parse_content` (parser.py lines 69-92): an all-blank
row is skipped; a row blank across the heading-width columns is a nested row
(the first becomes secondary headings; later ones are parsed against the
secondary headings — or the original headings when the secondary heading list
is empty — and appended to the last top-level record, or silently dropped when
there is none); any other row becomes a new top-level record and resets the
secondary headings. -/
def parseContentStep (headings : List String) (s : PCState) (row : List String) :
    Except String PCState :=
  if row.all (fun v => v = "") then .ok s
  else if (row.take headings.length).all (fun v => v = "") then
    match s.subheadings with
    | none => .ok { s with subheadings := some (parseHeadings row) }
    | some sh =>
      if !sh.isEmpty then
        if !s.output.isEmpty then
          match parseRow row sh headings.length with
          | .error e => .error e
          | .ok child => .ok { s with output := appendChildToLast s.output child }
        else .ok s
      else
        if !s.output.isEmpty then
          match parseRow row headings headings.length with
          | .error e => .error e
          | .ok child => .ok { s with output := appendChildToLast s.output child }
        else .ok s
  else
    match parseRow row headings 0 with
    | .error e => .error e
    | .ok r => .ok { output := s.output ++ [r], subheadings := none }

/-- `parse_content` (parser.py lines 65-93). -/
def parseContent (headings : List String) (rows : List (List String)) :
    Except String (List FieldRecord) :=
  match foldlExcept (parseContentStep headings) { output := [], subheadings := none } rows with
  | .error e => .error e
  | .ok s => .ok s.output

/-! ## `Table.clean_hex` (transformer.py lines 169-205) -/

/-- A row value as seen by `clean_hex`: a string, or any non-string value
(integer, list, child list ...) on which `re.match` raises `TypeError`. -/
inductive HVal where
  | str (s : String)
  | other
deriving DecidableEq, Repr

/-- A row as seen by `clean_hex`: a finite map from headings to values
(`none` = key absent).  Insertion order is irrelevant to every observation
`clean_hex` and the claims make, so the dict is modelled extensionally. -/
def HRow := String → Option HVal

/-- The detection test of `detect_hex_columns` (transformer.py lines 183-188):
`row.get(heading)` matched against the two hex regexes; a missing key or a
non-string value raises `TypeError` inside the `try`, which is swallowed by
`continue`. -/
def rowMatchesHeading (r : HRow) (h : String) : Bool :=
  match r h with
  | some (.str s) => hexValueMatch s || hexRangeMatch s
  | _ => false

/-- The rename loop body of `detect_hex_columns` (transformer.py lines
192-194): `row["hex-" + old] = row[old]` then `del row[old]`; a row without
the old key raises `KeyError` (uncaught there). -/
def renameInRow (old : String) (r : HRow) : Except String HRow :=
  match r old with
  | none => .error "KeyError"
  | some v =>
    .ok (fun k => if k = old then none else if k = "hex-" ++ old then some v else r k)

/-- `detect_hex_columns` (transformer.py lines 179-196): collect the indices
of headings matched by at least one row (the Python set of small ints
iterates in ascending order), then rename each collected heading table-wide. -/
def detectHexColumns (headings : List String) (rows : List HRow) :
    Except String (List String × List HRow) :=
  let idxs := (List.range headings.length).filter
    (fun i => rows.any (fun r => rowMatchesHeading r (headings.getD i "")))
  foldlExcept
    (fun st i =>
      let old := st.1.getD i ""
      match mapExcept (renameInRow old) st.2 with
      | .error e => .error e
      | .ok rs => .ok (st.1.set i ("hex-" ++ old), rs))
    (headings, rows) idxs

/-- The per-heading filter of `clean_hex` (transformer.py lines 173-175):
keep rows whose value matches either hex regex; `row[heading]` on a missing
key raises `KeyError`, `re.match` on a non-string raises `TypeError`. -/
def hexKeepRow (h : String) (r : HRow) : Except String Bool :=
  match r h with
  | some (.str s) => .ok (hexValueMatch s || hexRangeMatch s)
  | some .other => .error "TypeError"
  | none => .error "KeyError"

/-- `remove_hex_ranges` predicate (transformer.py line 200). -/
def hexNotRange (h : String) (r : HRow) : Except String Bool :=
  match r h with
  | some (.str s) => .ok (!hexRangeMatch s)
  | some .other => .error "TypeError"
  | none => .error "KeyError"

/-- `change_hex_format` body (transformer.py lines 202-205):
`row[heading] = "0x" + row[heading].strip("h")`. -/
def hexReformatRow (h : String) (r : HRow) : Except String HRow :=
  match r h with
  | some (.str s) =>
    .ok (fun k => if k = h then some (.str ("0x" ++ pyStripH s)) else r k)
  | some .other => .error "AttributeError"
  | none => .error "KeyError"

/-- `clean_hex` (transformer.py lines 169-177): detect and rename hex
columns, then for each heading containing `"hex-"` filter the rows by the
two regexes, drop the range rows, and reformat the surviving values. -/
def cleanHex (headings : List String) (rows : List HRow) :
    Except String (List String × List HRow) :=
  match detectHexColumns headings rows with
  | .error e => .error e
  | .ok (hs, rs0) =>
    let hexHeads := hs.filter (fun h => strContains "hex-" h)
    match foldlExcept
        (fun rs h =>
          match filterExcept (hexKeepRow h) rs with
          | .error e => .error e
          | .ok rs1 =>
            match filterExcept (hexNotRange h) rs1 with
            | .error e => .error e
            | .ok rs2 => mapExcept (hexReformatRow h) rs2)
        rs0 hexHeads with
    | .error e => .error e
    | .ok rsFin => .ok (hs, rsFin)

/-- A heading is detected by `detect_hex_columns` exactly when at least one
row value under it matches one of the two hex regexes. -/
def hexDetected (rows : List HRow) (h : String) : Bool :=
  rows.any (fun r => rowMatchesHeading r h)

/-- Spec-side survivor test for `clean_hex`, following the claim: a row
survives iff under every detected heading its (string) value matches the
plain hex-value pattern (range matches are dropped by the second filter). -/
def hexSurvives (detected : List String) (r : HRow) : Bool :=
  detected.all (fun h =>
    match r h with
    | some (.str s) => hexValueMatch s
    | _ => false)

/-- Spec-side row transformation for `clean_hex`, following the claim: a key
`hex-<h>` for a detected `h` holds the reformatted original value of `h`,
the original detected keys are gone, and everything else is untouched. -/
def hexSpecRow (detected : List String) (r : HRow) : HRow :=
  fun k =>
    match detected.find? (fun h => k = "hex-" ++ h) with
    | some h =>
      match r h with
      | some (.str s) => some (.str ("0x" ++ pyStripH s))
      | v => v
    | none => if k ∈ detected then none else r k

/-- Total version of the rename body (meaningful when the old key is
present). -/
def renameTotal (old : String) (r : HRow) : HRow :=
  fun k => if k = old then none else if k = "hex-" ++ old then r old else r k

/-- Sequential renames of a list of headings in a row. -/
def renameList (names : List String) (r : HRow) : HRow :=
  names.foldl (fun r n => renameTotal n r) r

/-- The per-row reformat-at-a-heading update of `change_hex_format`, total
version (meaningful when the value is a string). -/
def reformatAt (h : String) (r : HRow) : HRow :=
  fun k =>
    if k = h then
      match r h with
      | some (.str s) => some (.str ("0x" ++ pyStripH s))
      | v => v
    else r k

/-- Reformat at every heading of a list. -/
def reformatAll (hs : List String) (r : HRow) : HRow :=
  fun k =>
    if k ∈ hs then
      match r k with
      | some (.str s) => some (.str ("0x" ++ pyStripH s))
      | v => v
    else r k

/-- The matching test on a (present, string) value against the plain
hex-value regex. -/
def strValMatches (r : HRow) (h : String) : Bool :=
  match r h with
  | some (.str s) => hexValueMatch s
  | _ => false

/-- A concrete member table whose title matches `dword (\d+)` twice and whose
row bit widths sum to 64. -/
def c1Table : CmdTable :=
  { headings := ["bits", "name"], number := 12,
    rows := [{ bits := 32, name := "a" }, { bits := 32, name := "b" }],
    title := "command dword 0 command dword 1", type := none }

/-- A command group holding only `c1Table`. -/
def c1Group : CGroup :=
  { tables := [c1Table], spec_type := "command", c_type := "struct" }


/-- A one-column row whose value is the hex literal `20h`. -/
def c4Row : HRow := fun k => if k = "value" then some (.str "20h") else none


/-! # Theorems -/

/-- `isPowTwo` decides exact powers of two. -/
theorem isPowTwo_iff : ∀ n : Nat, isPowTwo n = true ↔ ∃ k : Nat, n = 2 ^ k
  | 0 => by
    simp only [isPowTwo]
    constructor
    · intro h; cases h
    · rintro ⟨k, hk⟩
      have : 0 < 2 ^ k := pow_pos (by norm_num) k
      omega
  | 1 => by
    simp only [isPowTwo]
    exact ⟨fun _ => ⟨0, rfl⟩, fun _ => trivial⟩
  | (m + 2) => by
    have ih := isPowTwo_iff ((m + 2) / 2)
    simp only [isPowTwo, Bool.and_eq_true, decide_eq_true_eq]
    constructor
    · rintro ⟨hmod, hrec⟩
      obtain ⟨k, hk⟩ := ih.mp hrec
      exact ⟨k + 1, by rw [pow_succ]; omega⟩
    · rintro ⟨k, hk⟩
      match k with
      | 0 => omega
      | j + 1 =>
        have h2 : m + 2 = 2 ^ j * 2 := by rw [hk, pow_succ]
        have h3 : (m + 2) / 2 = 2 ^ j := by omega
        exact ⟨by omega, ih.mpr ⟨j, h3⟩⟩
termination_by n => n
decreasing_by omega

/-- C2, counterexample: `check_sum` does crash on a zero total width — an
empty row list sums to 0 and `math.log(0, 2)` raises `ValueError`; there is
no guard in transformer.py lines 135-139. -/
theorem c2_counterexample :
    checkSum "figure" "bits" [] = Except.error "ValueError: math domain error" := rfl

/-- C2 (amended): for a positive total width, `check_sum` warns iff the total
is not an exact power of two; a zero total is not guarded and raises
`ValueError` out of the `math.log` call. -/
theorem c2_checkSum_amended (title heading : String) (widths : List Int) :
    (0 < widths.sum →
      ∃ warns, checkSum title heading widths = Except.ok warns ∧
        (warns = [] ↔ ∃ k : Nat, widths.sum = 2 ^ k)) ∧
    (widths.sum = 0 →
      checkSum title heading widths = Except.error "ValueError: math domain error") := by
  constructor
  · intro hpos
    unfold checkSum
    rw [if_neg (by omega)]
    refine ⟨_, rfl, ?_⟩
    by_cases hp : isPowTwo widths.sum.toNat = true
    · rw [if_pos hp]
      simp only [true_iff]
      obtain ⟨k, hk⟩ := (isPowTwo_iff _).mp hp
      refine ⟨k, ?_⟩
      have h1 : ((widths.sum.toNat : Int)) = widths.sum := Int.toNat_of_nonneg (le_of_lt hpos)
      rw [← h1, hk]
      push_cast
      ring
    · rw [if_neg hp]
      constructor
      · intro h; exact absurd h (by simp)
      · rintro ⟨k, hk⟩
        exfalso
        apply hp
        apply (isPowTwo_iff _).mpr
        refine ⟨k, ?_⟩
        have : widths.sum = ((2 ^ k : Nat) : Int) := by rw [hk]; push_cast; ring
        rw [this, Int.toNat_natCast]
  · intro hz
    unfold checkSum
    rw [if_pos (by omega)]

/-- C2, witness for the amended theorem. -/
theorem c2_witness :
    (0 : Int) < ([16, 16] : List Int).sum ∧
    ∃ warns, checkSum "t" "bits" [16, 16] = Except.ok warns ∧
      (warns = [] ↔ ∃ k : Nat, ([16, 16] : List Int).sum = 2 ^ k) :=
  ⟨by decide, (c2_checkSum_amended "t" "bits" [16, 16]).1 (by decide)⟩

/-- C3: `calculate_bits_and_bytes` collapses a two-element all-integer range
`[hi, lo]` (with `hi ≥ lo`) to `hi − lo + 1`, a singleton `[n]` to `1`, and
leaves any value containing a non-integer untouched; the row loop performs
exactly this on every row when no row raises. -/
theorem c3_calculate_spec :
    (∀ hi lo : Int, lo ≤ hi →
      calculateOne [BVal.i hi, BVal.i lo] = .ok (.int (hi - lo + 1))) ∧
    (∀ n : Int, calculateOne [BVal.i n] = .ok (.int 1)) ∧
    (∀ (l : List BVal) (s : String), BVal.s s ∈ l → calculateOne l = .ok (.list l)) ∧
    (∀ rows : List (List BVal), (∀ r ∈ rows, ∃ v, calculateOne r = .ok v) →
      calcRows rows =
        (rows.map (fun r => ((calculateOne r).toOption.getD (.list r))), false)) := by
  refine ⟨?_, ?_, ?_, ?_⟩
  · intro hi lo _
    simp [calculateOne, isIntVal]
  · intro n
    simp [calculateOne, isIntVal]
  · intro l s hmem
    have hall : l.all isIntVal = false := by
      rw [List.all_eq_false]
      exact ⟨BVal.s s, hmem, by simp [isIntVal]⟩
    simp [calculateOne, hall]
  · intro rows h
    induction rows with
    | nil => simp [calcRows]
    | cons r rest ih =>
      obtain ⟨v, hv⟩ := h r (by simp)
      have hrest := ih (fun x hx => h x (by simp [hx]))
      simp [calcRows, hv, hrest, Except.toOption]

/-- C3, witness. -/
theorem c3_witness :
    (16 : Int) ≤ 31 ∧ calculateOne [BVal.i 31, BVal.i 16] = .ok (.int (31 - 16 + 1)) :=
  ⟨by decide, c3_calculate_spec.1 31 16 (by decide)⟩

/-- C6: for every group processed by `collect_types`, the aggregate `c_type`
is `"enum"` when every member table is `"enum"`, `"struct"` when every member
is `"struct"`, and `"skip"` otherwise; afterwards every member table has its
`c_type` and `spec_type` keys deleted. -/
theorem c6_collectTypes_spec (groups : List (String × List TTable))
    (gname : String) (tables : List TTable)
    (hmem : (gname, tables) ∈ groups) (hne : tables ≠ []) :
    (gname, collectTypesGroup tables) ∈ collectTypes groups ∧
    ((∀ t ∈ tables, t.c_type = some "enum") → (collectTypesGroup tables).c_type = "enum") ∧
    ((∀ t ∈ tables, t.c_type = some "struct") → (collectTypesGroup tables).c_type = "struct") ∧
    ((¬ ∀ t ∈ tables, t.c_type = some "enum") → (¬ ∀ t ∈ tables, t.c_type = some "struct") →
      (collectTypesGroup tables).c_type = "skip") ∧
    (∀ t ∈ (collectTypesGroup tables).tables, t.c_type = none ∧ t.spec_type = none) := by
  refine ⟨?_, ?_, ?_, ?_, ?_⟩
  · exact List.mem_map_of_mem (fun g => (g.1, collectTypesGroup g.2)) hmem
  · intro h
    have hall : tables.all (fun t => t.c_type = some "enum") = true := by
      rw [List.all_eq_true]
      intro t ht
      exact decide_eq_true (h t ht)
    simp [collectTypesGroup, hall]
  · intro h
    have hall : tables.all (fun t => t.c_type = some "struct") = true := by
      rw [List.all_eq_true]
      intro t ht
      exact decide_eq_true (h t ht)
    have hnotenum : tables.all (fun t => t.c_type = some "enum") = false := by
      obtain ⟨t0, ts, rfl⟩ := List.exists_cons_of_ne_nil hne
      have h0 : t0.c_type = some "struct" := h t0 (by simp)
      simp [h0]
    simp [collectTypesGroup, hall, hnotenum]
  · intro he hs
    have h1 : tables.all (fun t => t.c_type = some "enum") = false := by
      rw [List.all_eq_false]
      push_neg at he
      obtain ⟨t, ht, hne2⟩ := he
      exact ⟨t, ht, by simpa using hne2⟩
    have h2 : tables.all (fun t => t.c_type = some "struct") = false := by
      rw [List.all_eq_false]
      push_neg at hs
      obtain ⟨t, ht, hne2⟩ := hs
      exact ⟨t, ht, by simpa using hne2⟩
    simp [collectTypesGroup, h1, h2]
  · intro t ht
    simp only [collectTypesGroup, List.mem_map] at ht
    obtain ⟨t0, _, rfl⟩ := ht
    exact ⟨rfl, rfl⟩

/-- C6, witness. -/
theorem c6_witness :
    (("g", [TTable.mk "a" 1 (some "enum") (some "")]) ∈
      [("g", [TTable.mk "a" 1 (some "enum") (some "")])]) ∧
    [TTable.mk "a" 1 (some "enum") (some "")] ≠ [] ∧
    (collectTypesGroup [TTable.mk "a" 1 (some "enum") (some "")]).c_type = "enum" := by
  have h := c6_collectTypes_spec [("g", [TTable.mk "a" 1 (some "enum") (some "")])]
    "g" [TTable.mk "a" 1 (some "enum") (some "")] (by simp) (by simp)
  exact ⟨by simp, by simp, h.2.1 (by intro t ht; simp at ht; rw [ht])⟩

/-- C8: `parse_table` drops the last row exactly when the text before `:` in
its first cell contains `NOTE` or `Note`, warning iff that text is not the
exact string `NOTES`; otherwise the grid is unchanged and nothing is
emitted. -/
theorem c8_stripNotes_spec (table : List (List String)) (_hne : table ≠ []) :
    ((strContains "NOTE" (firstWordOfLastRow table) ||
        strContains "Note" (firstWordOfLastRow table)) = true →
      (stripNotesRow table).1 = table.dropLast ∧
      ((stripNotesRow table).2 = [] ↔ firstWordOfLastRow table = "NOTES")) ∧
    ((strContains "NOTE" (firstWordOfLastRow table) ||
        strContains "Note" (firstWordOfLastRow table)) = false →
      stripNotesRow table = (table, [])) := by
  constructor
  · intro h
    simp only [stripNotesRow, h, if_true]
    refine ⟨trivial, ?_⟩
    by_cases hfw : firstWordOfLastRow table = "NOTES"
    · simp [hfw]
    · simp [hfw]
  · intro h
    simp [stripNotesRow, h]

/-- C8, witness. -/
theorem c8_witness :
    ([["a", "b"], ["NOTE 1: x", ""]] : List (List String)) ≠ [] ∧
    (stripNotesRow [["a", "b"], ["NOTE 1: x", ""]]).1 = [["a", "b"]] ∧
    ¬ (stripNotesRow [["a", "b"], ["NOTE 1: x", ""]]).2 = [] := by
  have h := (c8_stripNotes_spec [["a", "b"], ["NOTE 1: x", ""]] (by decide)).1 (by decide)
  refine ⟨by decide, by rw [h.1]; decide, ?_⟩
  intro hempty
  have := h.2.mp hempty
  exact absurd this (by decide)

/-- `setSlot` succeeds exactly within bounds. -/
theorem setSlot_cases (l : List CmdTable) (i : Nat) (t : CmdTable) :
    (i < l.length ∧ setSlot l i t = .ok (l.set i t)) ∨
    (¬ i < l.length ∧ setSlot l i t = .error "IndexError") := by
  by_cases h : i < l.length
  · exact Or.inl ⟨h, by simp [setSlot, h]⟩
  · exact Or.inr ⟨h, by simp [setSlot, h]⟩

/-- The only error `setSlot` produces is an `IndexError`. -/
theorem setSlot_error (l : List CmdTable) (i : Nat) (t : CmdTable) (e : String)
    (h : setSlot l i t = .error e) : e = "IndexError" := by
  unfold setSlot at h
  split at h
  · cases h
  · injection h with h2
    exact h2.symm

/-- A successful `setSlot` is an in-bounds `List.set`. -/
theorem setSlot_ok (l : List CmdTable) (i : Nat) (t : CmdTable) (r : List CmdTable)
    (h : setSlot l i t = .ok r) : r = l.set i t ∧ i < l.length := by
  unfold setSlot at h
  split at h
  · injection h with h2
    exact ⟨h2.symm, by assumption⟩
  · cases h

/-- The only error `getSlot` produces is an `IndexError`. -/
theorem getSlot_error (l : List CmdTable) (i : Nat) (e : String)
    (h : getSlot l i = .error e) : e = "IndexError" := by
  unfold getSlot at h
  split at h
  · cases h
  · injection h with h2
    exact h2.symm

/-- A successful `getSlot` is an in-bounds lookup. -/
theorem getSlot_ok (l : List CmdTable) (i : Nat) (t : CmdTable)
    (h : getSlot l i = .ok t) : l[i]? = some t := by
  unfold getSlot at h
  split at h
  · injection h with h2
    subst h2
    assumption
  · cases h

/-- Every error `processTable` can produce is an `IndexError`. -/
theorem processTable_error_eq (cs : List CmdTable) (t : CmdTable) (e : String) :
    processTable cs t = .error e → e = "IndexError" := by
  intro h
  unfold processTable at h
  by_cases h2 : (findDword t.title.data).length = 2
  · rw [if_pos h2] at h
    by_cases hs : (t.rows.map (fun r => r.bits)).sum = 64
    · rw [if_pos hs] at h
      cases hc1 : setSlot cs (digitGroupVal ((findDword t.title.data).getD 0 ""))
          { t with type := some 64 } with
      | error e1 =>
        simp only [hc1] at h
        injection h with h4
        subst h4
        exact setSlot_error _ _ _ _ hc1
      | ok c1 =>
        simp only [hc1] at h
        cases hocc : getSlot c1 (digitGroupVal ((findDword t.title.data).getD 1 "")) with
        | error e1 =>
          simp only [hocc] at h
          injection h with h4
          subst h4
          exact getSlot_error _ _ _ hocc
        | ok occ =>
          simp only [hocc] at h
          cases hc2 : setSlot c1 (digitGroupVal ((findDword t.title.data).getD 1 ""))
              { occ with title := "skip" } with
          | error e1 =>
            simp only [hc2] at h
            injection h with h4
            subst h4
            exact setSlot_error _ _ _ _ hc2
          | ok c2 =>
            simp only [hc2] at h
            cases h
    · rw [if_neg hs] at h
      cases h
  · rw [if_neg h2] at h
    by_cases h1 : (findDword t.title.data).length = 1
    · rw [if_pos h1] at h
      by_cases hs : (t.rows.map (fun r => r.bits)).sum = 32
      · rw [if_pos hs] at h
        cases hc1 : setSlot cs (digitGroupVal ((findDword t.title.data).getD 0 ""))
            { t with type := some 32 } with
        | error e1 =>
          simp only [hc1] at h
          injection h with h4
          subst h4
          exact setSlot_error _ _ _ _ hc1
        | ok c1 =>
          simp only [hc1] at h
          cases h
      · rw [if_neg hs] at h
        cases h
    · rw [if_neg h1] at h
      cases h

/-- A successful `processTable` step preserves the slot-array length. -/
theorem processTable_ok_length (cs : List CmdTable) (t : CmdTable)
    (res : List CmdTable × List String) :
    processTable cs t = .ok res → res.1.length = cs.length := by
  intro h
  unfold processTable at h
  by_cases h2 : (findDword t.title.data).length = 2
  · rw [if_pos h2] at h
    by_cases hs : (t.rows.map (fun r => r.bits)).sum = 64
    · rw [if_pos hs] at h
      cases hc1 : setSlot cs (digitGroupVal ((findDword t.title.data).getD 0 ""))
          { t with type := some 64 } with
      | error e1 => simp only [hc1] at h; cases h
      | ok c1 =>
        simp only [hc1] at h
        cases hocc : getSlot c1 (digitGroupVal ((findDword t.title.data).getD 1 "")) with
        | error e1 => simp only [hocc] at h; cases h
        | ok occ =>
          simp only [hocc] at h
          cases hc2 : setSlot c1 (digitGroupVal ((findDword t.title.data).getD 1 ""))
              { occ with title := "skip" } with
          | error e1 => simp only [hc2] at h; cases h
          | ok c2 =>
            simp only [hc2] at h
            injection h with h3
            obtain ⟨hc1e, _⟩ := setSlot_ok _ _ _ _ hc1
            obtain ⟨hc2e, _⟩ := setSlot_ok _ _ _ _ hc2
            subst h3
            simp only [hc2e, hc1e, List.length_set]
    · rw [if_neg hs] at h
      injection h with h3
      subst h3
      rfl
  · rw [if_neg h2] at h
    by_cases h1 : (findDword t.title.data).length = 1
    · rw [if_pos h1] at h
      by_cases hs : (t.rows.map (fun r => r.bits)).sum = 32
      · rw [if_pos hs] at h
        cases hc1 : setSlot cs (digitGroupVal ((findDword t.title.data).getD 0 ""))
            { t with type := some 32 } with
        | error e1 => simp only [hc1] at h; cases h
        | ok c1 =>
          simp only [hc1] at h
          injection h with h3
          obtain ⟨hc1e, _⟩ := setSlot_ok _ _ _ _ hc1
          subst h3
          simp only [hc1e, List.length_set]
      · rw [if_neg hs] at h
        injection h with h3
        subst h3
        rfl
    · rw [if_neg h1] at h
      injection h with h3
      subst h3
      rfl

/-- On a 16-slot array, a table whose title yields an out-of-range dword
index with the required bit sum makes `processTable` raise. -/
theorem processTable_oob (cs : List CmdTable) (t : CmdTable) (hlen : cs.length = 16)
    (hcase :
      (∃ a, findDword t.title.data = [a] ∧ 16 ≤ digitGroupVal a ∧
        (t.rows.map (fun r => r.bits)).sum = 32) ∨
      (∃ a b, findDword t.title.data = [a, b] ∧
        (16 ≤ digitGroupVal a ∨ 16 ≤ digitGroupVal b) ∧
        (t.rows.map (fun r => r.bits)).sum = 64)) :
    processTable cs t = .error "IndexError" := by
  rcases hcase with ⟨a, hm, hge, hsum⟩ | ⟨a, b, hm, hor, hsum⟩
  · simp only [processTable, hm]
    norm_num
    rw [if_pos hsum]
    have hnot : ¬ digitGroupVal a < cs.length := by omega
    simp [setSlot, hnot]
  · simp only [processTable, hm]
    norm_num
    rw [if_pos hsum]
    by_cases ha : 16 ≤ digitGroupVal a
    · have hnot : ¬ digitGroupVal a < cs.length := by omega
      simp [setSlot, hnot]
    · have hb : 16 ≤ digitGroupVal b := by
        rcases hor with h | h
        · omega
        · exact h
      have hlt : digitGroupVal a < cs.length := by omega
      simp only [setSlot, if_pos hlt]
      have hget : (cs.set (digitGroupVal a) { t with type := some 64 })[digitGroupVal b]? = none := by
        apply List.getElem?_eq_none
        simp only [List.length_set]
        omega
      simp [getSlot, hget]

/-- A table meeting the out-of-range conditions anywhere in the list drives
the whole `process_commands` fold into the `IndexError`. -/
theorem foldCommands_error (tables : List CmdTable) (t : CmdTable)
    (cs : List CmdTable) (ws : List String)
    (hlen : cs.length = 16) (hmem : t ∈ tables)
    (hcase :
      (∃ a, findDword t.title.data = [a] ∧ 16 ≤ digitGroupVal a ∧
        (t.rows.map (fun r => r.bits)).sum = 32) ∨
      (∃ a b, findDword t.title.data = [a, b] ∧
        (16 ≤ digitGroupVal a ∨ 16 ≤ digitGroupVal b) ∧
        (t.rows.map (fun r => r.bits)).sum = 64)) :
    foldlExcept
      (fun st tb =>
        match processTable st.1 tb with
        | .error e => .error e
        | .ok r => .ok (r.1, st.2 ++ r.2))
      (cs, ws) tables = .error "IndexError" := by
  induction tables generalizing cs ws with
  | nil => cases hmem
  | cons hd tl ih =>
    rcases List.mem_cons.mp hmem with rfl | hmem2
    · have herr := processTable_oob cs t hlen hcase
      simp [foldlExcept, herr]
    · cases hp : processTable cs hd with
      | error e =>
        have he : e = "IndexError" := processTable_error_eq _ _ _ hp
        simp [foldlExcept, hp, he]
      | ok r =>
        have hlen2 : r.1.length = 16 := by
          rw [processTable_ok_length _ _ _ hp, hlen]
        simp only [foldlExcept, hp]
        exact ih r.1 (ws ++ r.2) hlen2 hmem2

/-- C9: `process_commands` indexes the fixed 16-slot array with the parsed
dword number unchecked: a member table of a command group whose title yields
an index ≥ 16 and whose bits sum to the required total (32 for one match, 64
for two) makes `process_commands` raise an `IndexError` instead of logging
and continuing.  (No caller catches it: `transformer.main` and
`scheduler.main` only guard `FileNotFoundError`, so the process dies.) -/
theorem c9_processCommands_oob (g : CGroup) (t : CmdTable)
    (hspec : g.spec_type = "command") (hmem : t ∈ g.tables)
    (hcase :
      (∃ a, findDword t.title.data = [a] ∧ 16 ≤ digitGroupVal a ∧
        (t.rows.map (fun r => r.bits)).sum = 32) ∨
      (∃ a b, findDword t.title.data = [a, b] ∧
        (16 ≤ digitGroupVal a ∨ 16 ≤ digitGroupVal b) ∧
        (t.rows.map (fun r => r.bits)).sum = 64)) :
    processGroup g = Except.error "IndexError" := by
  unfold processGroup
  rw [if_pos hspec]
  rw [foldCommands_error g.tables t genEmptyCommands [] (by simp [genEmptyCommands]) hmem hcase]

/-- C9, witness: a single-table command group with title `command dword 20`
and one 32-bit row. -/
theorem c9_witness :
    (CGroup.mk [CmdTable.mk ["bits", "name"] 7 [CmdRow.mk 32 "x"] "command dword 20" none]
        "command" "struct").spec_type = "command" ∧
    processGroup (CGroup.mk [CmdTable.mk ["bits", "name"] 7 [CmdRow.mk 32 "x"] "command dword 20" none]
        "command" "struct") = Except.error "IndexError" :=
  ⟨rfl,
    c9_processCommands_oob _ (CmdTable.mk ["bits", "name"] 7 [CmdRow.mk 32 "x"] "command dword 20" none)
      rfl (by simp)
      (Or.inl ⟨"20", by decide, by decide, by decide⟩)⟩

/-- The placeholder slots all have length-preserving structure: the seeded
array has 16 slots. -/
theorem genEmptyCommands_length : genEmptyCommands.length = 16 := by
  simp [genEmptyCommands]

/-- The seeded array holds the synthetic placeholder at every slot. -/
theorem genEmptyCommands_getElem (i : Nat) (h : i < 16) :
    genEmptyCommands[i]? =
      some (CmdTable.mk ["bits", "name"] (-1) [CmdRow.mk 32 ("cdw" ++ toString i)] "" (some 32)) := by
  simp [genEmptyCommands, List.getElem?_map, List.getElem?_range h]

/-- C1, counterexample: for the command group `c1Group` (one member table
titled `command dword 0 command dword 1`, bits summing to 64), the slot at
the second matched index 1 does not hold that table: it still holds the
synthetic placeholder rows (`cdw1`), only with its title overwritten to
`skip` — the source stores the table at the first index only. -/
theorem c1_counterexample :
    (processGroup c1Group).map (fun r => (r.1.tables.getD 1 c1Table).rows) =
      Except.ok [CmdRow.mk 32 "cdw1"] ∧
    c1Table.rows ≠ [CmdRow.mk 32 "cdw1"] := by
  constructor
  · rfl
  · decide

/-- C1 (amended): for a command group whose `tables` list is the single
member `t`, `process_commands` rebuilds the 16 placeholder slots and: on two
`dword` matches with bits summing to 64 it stores `t` (with type 64) at the
first matched index only, and overwrites the title of the placeholder at the
second matched index with `skip`; on one match with bits summing to 32 it
stores `t` (with type 32) at the matched index; on a mismatched sum it warns
and discards the table, every slot keeping its placeholder. -/
theorem c1_processCommands_amended (g : CGroup) (t : CmdTable)
    (hspec : g.spec_type = "command") (htab : g.tables = [t]) :
    (∀ a b, findDword t.title.data = [a, b] →
      digitGroupVal a < 16 → digitGroupVal b < 16 → digitGroupVal a ≠ digitGroupVal b →
      (t.rows.map (fun r => r.bits)).sum = 64 →
      processGroup g = .ok (CGroup.mk
        ((genEmptyCommands.set (digitGroupVal a) { t with type := some 64 }).set
          (digitGroupVal b)
          (CmdTable.mk ["bits", "name"] (-1)
            [CmdRow.mk 32 ("cdw" ++ toString (digitGroupVal b))] "skip" (some 32)))
        g.spec_type g.c_type, [])) ∧
    (∀ a, findDword t.title.data = [a] → digitGroupVal a < 16 →
      (t.rows.map (fun r => r.bits)).sum = 32 →
      processGroup g = .ok (CGroup.mk
        (genEmptyCommands.set (digitGroupVal a) { t with type := some 32 })
        g.spec_type g.c_type, [])) ∧
    (∀ a b, findDword t.title.data = [a, b] →
      (t.rows.map (fun r => r.bits)).sum ≠ 64 →
      processGroup g = .ok (CGroup.mk genEmptyCommands g.spec_type g.c_type,
        ["Figure " ++ toString t.number ++ ": " ++ t.title ++ " bits doesnt sum up to 64"])) ∧
    (∀ a, findDword t.title.data = [a] →
      (t.rows.map (fun r => r.bits)).sum ≠ 32 →
      processGroup g = .ok (CGroup.mk genEmptyCommands g.spec_type g.c_type,
        ["Figure " ++ toString t.number ++ ": " ++ t.title ++ " bits doesnt sum up to 32"])) := by
  have hfold : ∀ res : List CmdTable × List String,
      processTable genEmptyCommands t = .ok res →
      processGroup g = .ok ({ g with tables := res.1 }, res.2) := by
    intro res hres
    unfold processGroup
    rw [if_pos hspec, htab]
    simp only [foldlExcept, hres, List.nil_append]
  refine ⟨?_, ?_, ?_, ?_⟩
  · intro a b hm ha hb hab hsum
    apply hfold (((genEmptyCommands.set (digitGroupVal a) { t with type := some 64 }).set
      (digitGroupVal b)
      (CmdTable.mk ["bits", "name"] (-1)
        [CmdRow.mk 32 ("cdw" ++ toString (digitGroupVal b))] "skip" (some 32))), [])
    unfold processTable
    rw [hm]
    simp only [List.length_cons, List.length_nil, List.getD_cons_zero, List.getD_cons_succ]
    norm_num
    rw [if_pos hsum]
    have hset1 : setSlot genEmptyCommands (digitGroupVal a) { t with type := some 64 } =
        .ok (genEmptyCommands.set (digitGroupVal a) { t with type := some 64 }) := by
      simp [setSlot, genEmptyCommands_length, ha]
    simp only [hset1]
    have hget : getSlot (genEmptyCommands.set (digitGroupVal a) { t with type := some 64 })
        (digitGroupVal b) =
        .ok (CmdTable.mk ["bits", "name"] (-1)
          [CmdRow.mk 32 ("cdw" ++ toString (digitGroupVal b))] "" (some 32)) := by
      unfold getSlot
      rw [List.getElem?_set_ne hab, genEmptyCommands_getElem _ hb]
    simp only [hget]
    have hset2 : setSlot (genEmptyCommands.set (digitGroupVal a) { t with type := some 64 })
        (digitGroupVal b)
        (CmdTable.mk ["bits", "name"] (-1)
          [CmdRow.mk 32 ("cdw" ++ toString (digitGroupVal b))] "skip" (some 32)) =
        .ok ((genEmptyCommands.set (digitGroupVal a) { t with type := some 64 }).set
          (digitGroupVal b)
          (CmdTable.mk ["bits", "name"] (-1)
            [CmdRow.mk 32 ("cdw" ++ toString (digitGroupVal b))] "skip" (some 32))) := by
      simp [setSlot, genEmptyCommands_length, hb]
    simp only [hset2]
  · intro a hm ha hsum
    apply hfold ((genEmptyCommands.set (digitGroupVal a) { t with type := some 32 }), [])
    unfold processTable
    rw [hm]
    simp only [List.length_cons, List.length_nil, List.getD_cons_zero]
    norm_num
    rw [if_pos hsum]
    have hset1 : setSlot genEmptyCommands (digitGroupVal a) { t with type := some 32 } =
        .ok (genEmptyCommands.set (digitGroupVal a) { t with type := some 32 }) := by
      simp [setSlot, genEmptyCommands_length, ha]
    simp only [hset1]
  · intro a b hm hsum
    apply hfold (genEmptyCommands,
      ["Figure " ++ toString t.number ++ ": " ++ t.title ++ " bits doesnt sum up to 64"])
    unfold processTable
    rw [hm]
    norm_num
    intro hcontra
    exact absurd hcontra hsum
  · intro a hm hsum
    apply hfold (genEmptyCommands,
      ["Figure " ++ toString t.number ++ ": " ++ t.title ++ " bits doesnt sum up to 32"])
    unfold processTable
    rw [hm]
    norm_num
    intro hcontra
    exact absurd hcontra hsum

/-- C1, witness for the amended theorem: scenario D — one table matching
`dword 5`, rows summing to 32, lands in slot 5 with type 32, the other slots
keeping their placeholders. -/
theorem c1_witness :
    (CGroup.mk [CmdTable.mk ["bits", "name"] 7 [CmdRow.mk 16 "x", CmdRow.mk 16 "y"]
        "command dword 5" none] "command" "struct").spec_type = "command" ∧
    processGroup (CGroup.mk [CmdTable.mk ["bits", "name"] 7 [CmdRow.mk 16 "x", CmdRow.mk 16 "y"]
        "command dword 5" none] "command" "struct") =
      .ok (CGroup.mk
        (genEmptyCommands.set 5
          (CmdTable.mk ["bits", "name"] 7 [CmdRow.mk 16 "x", CmdRow.mk 16 "y"]
            "command dword 5" (some 32)))
        "command" "struct", []) := by
  have h := (c1_processCommands_amended
    (CGroup.mk [CmdTable.mk ["bits", "name"] 7 [CmdRow.mk 16 "x", CmdRow.mk 16 "y"]
      "command dword 5" none] "command" "struct")
    (CmdTable.mk ["bits", "name"] 7 [CmdRow.mk 16 "x", CmdRow.mk 16 "y"]
      "command dword 5" none)
    rfl rfl).2.1 "5" (by decide) (by decide) (by decide)
  exact ⟨rfl, h⟩

/-- `dropWhile` is the identity when no element satisfies the predicate. -/
theorem dropWhile_eq_self_of_not {p : Char → Bool} (cs : List Char)
    (h : ∀ c ∈ cs, p c = false) : cs.dropWhile p = cs := by
  cases cs with
  | nil => rfl
  | cons c rest => simp [List.dropWhile_cons, h c (by simp)]

/-- `strip()` is the identity on whitespace-free strings. -/
theorem pyTrim_eq_self (cs : List Char) (h : ∀ c ∈ cs, c.isWhitespace = false) :
    pyTrim cs = cs := by
  unfold pyTrim
  rw [dropWhile_eq_self_of_not cs h]
  rw [dropWhile_eq_self_of_not cs.reverse
    (fun c hc => h c (List.mem_reverse.mp hc))]
  exact List.reverse_reverse cs

/-- A decimal digit is not whitespace. -/
theorem isDigit_not_ws (c : Char) (h : c.isDigit = true) : c.isWhitespace = false := by
  by_contra hws
  rw [Bool.not_eq_false] at hws
  simp only [Char.isWhitespace, Bool.or_eq_true, decide_eq_true_eq] at hws
  rcases hws with ((h1 | h1) | h1) | h1 <;> subst h1 <;> exact absurd h (by decide)

/-- A decimal digit differs from any non-digit character. -/
theorem isDigit_ne (c : Char) (h : c.isDigit = true) (d : Char)
    (hd : d.isDigit = false) : c ≠ d := by
  intro he
  subst he
  rw [h] at hd
  cases hd

/-- `int(s)` on a non-empty all-digit string yields its decimal value. -/
theorem pyIntChars_digits (cs : List Char) (hne : cs ≠ [])
    (hdig : ∀ c ∈ cs, c.isDigit = true) :
    pyIntChars cs = some ((digitsToNat cs : Int)) := by
  cases cs with
  | nil => exact absurd rfl hne
  | cons c rest =>
    have hc : c.isDigit = true := hdig c (by simp)
    have htrim := pyTrim_eq_self (c :: rest) (fun x hx => isDigit_not_ws x (hdig x hx))
    simp only [pyIntChars, htrim]
    rw [if_neg (isDigit_ne c hc '-' (by decide)),
      if_neg (isDigit_ne c hc '+' (by decide)), if_pos]
    rw [List.all_eq_true]
    intro x hx
    exact hdig x hx

/-- `split(sep)` on a separator-free string is the singleton fragment. -/
theorem splitChar_not_mem (sep : Char) (cs : List Char) (h : sep ∉ cs) :
    splitChar sep cs = [cs] := by
  induction cs with
  | nil => rfl
  | cons c rest ih =>
    have hne : ¬ c = sep := fun he => h (he ▸ List.mem_cons_self c rest)
    simp only [splitChar, if_neg hne,
      ih (fun hm => h (List.mem_cons_of_mem c hm))]
    rfl

/-- `split(sep)` peels the fragment before the first separator. -/
theorem splitChar_append (sep : Char) (a b : List Char) (h : sep ∉ a) :
    splitChar sep (a ++ sep :: b) = a :: splitChar sep b := by
  induction a with
  | nil => simp [splitChar]
  | cons c rest ih =>
    have hne : ¬ c = sep := fun he => h (he ▸ List.mem_cons_self c rest)
    have step : (c :: rest) ++ sep :: b = c :: (rest ++ sep :: b) := rfl
    rw [step]
    simp only [splitChar, if_neg hne]
    rw [ih (fun hm => h (List.mem_cons_of_mem c hm))]
    rfl

/-- C7: the `bits`/`bytes` branch of `parse_row` parses `"hi:lo"` (decimal
digit strings) into the descending integer pair `[hi, lo]`; an ascending
pair is sorted descending with the "range is in wrong order" warning; a
plain integer cell becomes the singleton `[n]`; an empty cell stores nothing
and warns nothing. -/
theorem c7_parseBits_spec (heading a b : String)
    (ha1 : a.data ≠ []) (ha2 : ∀ c ∈ a.data, c.isDigit = true)
    (hb1 : b.data ≠ []) (hb2 : ∀ c ∈ b.data, c.isDigit = true) :
    (((digitsToNat b.data : Int) ≤ (digitsToNat a.data : Int)) →
      parseBitsCell heading (a ++ ":" ++ b) =
        .ok { value := some (.ints [(digitsToNat a.data : Int), (digitsToNat b.data : Int)]),
              warnings := [] }) ∧
    (((digitsToNat a.data : Int) < (digitsToNat b.data : Int)) →
      parseBitsCell heading (a ++ ":" ++ b) =
        .ok { value := some (.ints [(digitsToNat b.data : Int), (digitsToNat a.data : Int)]),
              warnings := [heading ++ " range is in wrong order: " ++ (a ++ ":" ++ b)] }) ∧
    (parseBitsCell heading a =
      .ok { value := some (.ints [(digitsToNat a.data : Int)]), warnings := [] }) ∧
    (parseBitsCell heading "" = .ok { value := none, warnings := [] }) := by
  have hnomema : ':' ∉ a.data := fun hm => absurd (ha2 _ hm) (by decide)
  have hnomemb : ':' ∉ b.data := fun hm => absurd (hb2 _ hm) (by decide)
  have hdata : (a ++ ":" ++ b).data = a.data ++ ':' :: b.data := by
    simp [String.data_append]
  have hsplit : splitChar ':' (a ++ ":" ++ b).data = [a.data, b.data] := by
    rw [hdata, splitChar_append ':' a.data b.data hnomema,
      splitChar_not_mem ':' b.data hnomemb]
  have hmap : mapOption pyIntChars [a.data, b.data] =
      some [(digitsToNat a.data : Int), (digitsToNat b.data : Int)] := by
    simp [mapOption, pyIntChars_digits a.data ha1 ha2, pyIntChars_digits b.data hb1 hb2]
  refine ⟨?_, ?_, ?_, ?_⟩
  · intro hle
    simp only [parseBitsCell, hsplit, hmap]
    rw [if_neg (not_lt.mpr hle)]
  · intro hlt
    simp only [parseBitsCell, hsplit, hmap]
    rw [if_pos hlt]
  · have hsplita : splitChar ':' a.data = [a.data] := splitChar_not_mem ':' a.data hnomema
    have hmapa : mapOption pyIntChars [a.data] = some [(digitsToNat a.data : Int)] := by
      simp [mapOption, pyIntChars_digits a.data ha1 ha2]
    simp only [parseBitsCell, hsplita, hmapa]
  · rfl

/-- C7, witness. -/
theorem c7_witness :
    ("31" : String).data ≠ [] ∧ ("16" : String).data ≠ [] ∧
    parseBitsCell "bits" ("31" ++ ":" ++ "16") =
      .ok { value := some (.ints [(digitsToNat ("31" : String).data : Int),
              (digitsToNat ("16" : String).data : Int)]),
            warnings := [] } := by
  refine ⟨by decide, by decide, ?_⟩
  exact (c7_parseBits_spec "bits" "31" "16" (by decide) (by decide) (by decide)
    (by decide)).1 (by decide)

/-- A successful decoration: the rows are the second components, and each
pair carries the key of its row. -/
theorem decorate_ok (k : String) (rows : List ORow) (dec : List (Int × ORow))
    (h : decorate k rows = .ok dec) :
    dec.map (fun p => p.2) = rows ∧ ∀ p ∈ dec, rowKeyHigh p.2 k = .ok p.1 := by
  induction rows generalizing dec with
  | nil =>
    simp only [decorate, mapExcept] at h
    injection h with h2
    subst h2
    simp
  | cons r rest ih =>
    simp only [decorate, mapExcept] at h
    cases hk : rowKeyHigh r k with
    | error e =>
      rw [hk] at h
      simp [Except.map] at h
    | ok n =>
      rw [hk] at h
      simp only [Except.map] at h
      cases hrest : mapExcept (fun r => (rowKeyHigh r k).map (fun n => (n, r))) rest with
      | error e =>
        have hrest2 := hrest
        simp only [Except.map] at hrest2
        rw [hrest2] at h
        cases h
      | ok ys =>
        have hrest2 := hrest
        simp only [Except.map] at hrest2
        rw [hrest2] at h
        injection h with h2
        subst h2
        obtain ⟨hmap, hkeys⟩ := ih ys hrest
        constructor
        · simp [hmap]
        · intro p hp
          rcases List.mem_cons.mp hp with rfl | hp2
          · exact hk
          · exact hkeys p hp2

/-- Decoration of the row list underlying a pair list whose pairs each carry
their row's key. -/
theorem decorate_of_pairs (k : String) (l : List (Int × ORow))
    (h : ∀ p ∈ l, rowKeyHigh p.2 k = .ok p.1) :
    decorate k (l.map (fun p => p.2)) = .ok l := by
  induction l with
  | nil => rfl
  | cons p rest ih =>
    have ih2 := ih (fun q hq => h q (by simp [hq]))
    simp only [decorate] at ih2 ⊢
    simp only [List.map_cons, mapExcept, h p (by simp), Except.map] at ih2 ⊢
    simp only [ih2]

/-- The descending comparison is transitive. -/
theorem leDesc_trans : ∀ a b c : Int × ORow,
    (fun p q : Int × ORow => decide (q.1 ≤ p.1)) a b = true →
    (fun p q : Int × ORow => decide (q.1 ≤ p.1)) b c = true →
    (fun p q : Int × ORow => decide (q.1 ≤ p.1)) a c = true := by
  intro a b c h1 h2
  simp only [decide_eq_true_eq] at *
  omega

/-- The descending comparison is total. -/
theorem leDesc_total : ∀ a b : Int × ORow,
    ((fun p q : Int × ORow => decide (q.1 ≤ p.1)) a b ||
      (fun p q : Int × ORow => decide (q.1 ≤ p.1)) b a) = true := by
  intro a b
  simp only [Bool.or_eq_true, decide_eq_true_eq]
  omega

/-- The ascending comparison is transitive. -/
theorem leAsc_trans : ∀ a b c : Int × ORow,
    (fun p q : Int × ORow => decide (p.1 ≤ q.1)) a b = true →
    (fun p q : Int × ORow => decide (p.1 ≤ q.1)) b c = true →
    (fun p q : Int × ORow => decide (p.1 ≤ q.1)) a c = true := by
  intro a b c h1 h2
  simp only [decide_eq_true_eq] at *
  omega

/-- The ascending comparison is total. -/
theorem leAsc_total : ∀ a b : Int × ORow,
    ((fun p q : Int × ORow => decide (p.1 ≤ q.1)) a b ||
      (fun p q : Int × ORow => decide (p.1 ≤ q.1)) b a) = true := by
  intro a b
  simp only [Bool.or_eq_true, decide_eq_true_eq]
  omega

/-- `checkOrderWith` reports no change on rows whose decoration is already
sorted descending. -/
theorem checkOrderWith_sorted_desc (k : String) (rows : List ORow)
    (dec : List (Int × ORow)) (hdec : decorate k rows = .ok dec)
    (hp : dec.Pairwise (fun p q => q.1 ≤ p.1)) :
    checkOrderWith k true rows = .ok (rows, false) := by
  have hsnd := (decorate_ok k rows dec hdec).1
  have hms : dec.mergeSort (fun p q : Int × ORow => decide (q.1 ≤ p.1)) = dec :=
    List.mergeSort_of_sorted (hp.imp (fun h => decide_eq_true h))
  simp only [checkOrderWith, hdec]
  simp [hms, hsnd]

/-- `checkOrderWith` reports no change on rows whose decoration is already
sorted ascending. -/
theorem checkOrderWith_sorted_asc (k : String) (rows : List ORow)
    (dec : List (Int × ORow)) (hdec : decorate k rows = .ok dec)
    (hp : dec.Pairwise (fun p q => p.1 ≤ q.1)) :
    checkOrderWith k false rows = .ok (rows, false) := by
  have hsnd := (decorate_ok k rows dec hdec).1
  have hms : dec.mergeSort (fun p q : Int × ORow => decide (p.1 ≤ q.1)) = dec :=
    List.mergeSort_of_sorted (hp.imp (fun h => decide_eq_true h))
  simp only [checkOrderWith, hdec]
  simp [hms, hsnd]

/-- `check_order` is a no-op (and silent) when each of the two branch sorts
either does not apply or would not reorder. -/
theorem checkOrder_noop (t : OTable)
    (hbits : "bits" ∈ t.headings → 1 < t.rows.length →
      checkOrderWith "bits" true t.rows = .ok (t.rows, false))
    (hbytes : "bytes" ∈ t.headings → 1 < t.rows.length →
      checkOrderWith "bytes" false t.rows = .ok (t.rows, false)) :
    checkOrder t = .ok (t, []) := by
  have hby : checkOrderBytes t = .ok (t, []) := by
    unfold checkOrderBytes
    by_cases hc : "bytes" ∈ t.headings ∧ 1 < t.rows.length
    · rw [if_pos hc, hbytes hc.1 hc.2]
      rfl
    · rw [if_neg hc]
  unfold checkOrder
  by_cases hc : "bits" ∈ t.headings ∧ 1 < t.rows.length
  · rw [if_pos hc, hbits hc.1 hc.2]
    exact hby
  · rw [if_neg hc]
    exact hby

/-- C5 (amended): `check_order` changes nothing and warns nothing on a
table sorted on every applicable key -- descending by `row["bits"][0]`
whenever `bits` is a heading AND ascending by `row["bytes"][0]` whenever
`bytes` is a heading; and on a table that does not carry both the `bits`
and the `bytes` heading, running `check_order` twice equals running it
once.  (With both headings present idempotence fails, because the `bytes`
branch is an `elif` of the full `bits` condition: see the accompanying
counterexample.) -/
theorem c5_checkOrder_amended (t : OTable) :
    (∀ decB decY,
      ("bits" ∈ t.headings → decorate "bits" t.rows = .ok decB ∧
        decB.Pairwise (fun p q => q.1 ≤ p.1)) →
      ("bytes" ∈ t.headings → decorate "bytes" t.rows = .ok decY ∧
        decY.Pairwise (fun p q => p.1 ≤ q.1)) →
      checkOrder t = .ok (t, [])) ∧
    (("bits" ∉ t.headings ∨ "bytes" ∉ t.headings) →
      ∀ t1 w, checkOrder t = .ok (t1, w) → checkOrder t1 = .ok (t1, [])) := by
  constructor
  · intro decB decY hB hY
    exact checkOrder_noop t
      (fun hb _ => checkOrderWith_sorted_desc "bits" t.rows decB (hB hb).1 (hB hb).2)
      (fun hby _ => checkOrderWith_sorted_asc "bytes" t.rows decY (hY hby).1 (hY hby).2)
  · intro hone t1 w h
    have horig := h
    unfold checkOrder at h
    by_cases hc : "bits" ∈ t.headings ∧ 1 < t.rows.length
    · rw [if_pos hc] at h
      have hnby : "bytes" ∉ t.headings := by
        cases hone with
        | inl hnb => exact absurd hc.1 hnb
        | inr hnb => exact hnb
      cases hw : checkOrderWith "bits" true t.rows with
      | error e =>
        rw [hw] at h
        cases h
      | ok pr =>
        obtain ⟨rs, warned⟩ := pr
        simp only [hw] at h
        cases warned with
        | false =>
          have h5 : checkOrderBytes t = .ok (t1, w) := h
          unfold checkOrderBytes at h5
          rw [if_neg (show ¬("bytes" ∈ t.headings ∧ 1 < t.rows.length) from
            fun hcy => hnby hcy.1)] at h5
          injection h5 with h6
          injection h6 with h7 h8
          subst h7
          subst h8
          exact horig
        | true =>
          have h5 : (Except.ok ({ t with rows := rs },
              [t.title ++ ": bits are in wrong order"]) :
              Except String (OTable × List String)) = .ok (t1, w) := h
          injection h5 with h6
          injection h6 with h7 h8
          subst h7
          simp only [checkOrderWith] at hw
          cases hdec : decorate "bits" t.rows with
          | error e =>
            rw [hdec] at hw
            cases hw
          | ok dec =>
            simp only [hdec, if_true] at hw
            have hrs : rs =
                (dec.mergeSort (fun p q : Int × ORow => decide (q.1 ≤ p.1))).map
                  (fun p => p.2) := by
              by_cases hne :
                  (dec.mergeSort (fun p q : Int × ORow => decide (q.1 ≤ p.1))).map
                    (fun p => p.2) ≠ t.rows
              · rw [if_pos hne] at hw
                injection hw with hw2
                injection hw2 with hw3 hw4
                exact hw3.symm
              · rw [if_neg hne] at hw
                injection hw with hw2
                injection hw2 with hw3 hw4
                cases hw4
            subst hrs
            have hperm :=
              List.mergeSort_perm dec (fun p q : Int × ORow => decide (q.1 ≤ p.1))
            have hkeys := (decorate_ok "bits" t.rows dec hdec).2
            have hdec2 : decorate "bits"
                ((dec.mergeSort (fun p q : Int × ORow => decide (q.1 ≤ p.1))).map
                  (fun p => p.2)) =
                .ok (dec.mergeSort (fun p q : Int × ORow => decide (q.1 ≤ p.1))) :=
              decorate_of_pairs _ _ (fun p hp => hkeys p (hperm.mem_iff.mp hp))
            have hp2 : (dec.mergeSort
                (fun p q : Int × ORow => decide (q.1 ≤ p.1))).Pairwise
                (fun p q => q.1 ≤ p.1) :=
              (List.sorted_mergeSort leDesc_trans leDesc_total dec).imp
                (fun hpq => of_decide_eq_true hpq)
            exact checkOrder_noop _
              (fun _ _ => checkOrderWith_sorted_desc "bits" _ _ hdec2 hp2)
              (fun hby2 _ => absurd hby2 hnby)
    · rw [if_neg hc] at h
      unfold checkOrderBytes at h
      by_cases hcy : "bytes" ∈ t.headings ∧ 1 < t.rows.length
      · rw [if_pos hcy] at h
        have hnbits : "bits" ∉ t.headings := fun hb => hc ⟨hb, hcy.2⟩
        cases hw : checkOrderWith "bytes" false t.rows with
        | error e =>
          rw [hw] at h
          cases h
        | ok pr =>
          obtain ⟨rs, warned⟩ := pr
          simp only [hw] at h
          cases warned with
          | false =>
            have h5 : (Except.ok (t, []) :
                Except String (OTable × List String)) = .ok (t1, w) := h
            injection h5 with h6
            injection h6 with h7 h8
            subst h7
            subst h8
            exact horig
          | true =>
            have h5 : (Except.ok ({ t with rows := rs },
                [t.title ++ ": bytes are in wrong order"]) :
                Except String (OTable × List String)) = .ok (t1, w) := h
            injection h5 with h6
            injection h6 with h7 h8
            subst h7
            simp only [checkOrderWith] at hw
            cases hdec : decorate "bytes" t.rows with
            | error e =>
              rw [hdec] at hw
              cases hw
            | ok dec =>
              simp only [hdec, Bool.false_eq_true, if_false] at hw
              have hrs : rs =
                  (dec.mergeSort (fun p q : Int × ORow => decide (p.1 ≤ q.1))).map
                    (fun p => p.2) := by
                by_cases hne :
                    (dec.mergeSort (fun p q : Int × ORow => decide (p.1 ≤ q.1))).map
                      (fun p => p.2) ≠ t.rows
                · rw [if_pos hne] at hw
                  injection hw with hw2
                  injection hw2 with hw3 hw4
                  exact hw3.symm
                · rw [if_neg hne] at hw
                  injection hw with hw2
                  injection hw2 with hw3 hw4
                  cases hw4
              subst hrs
              have hperm :=
                List.mergeSort_perm dec (fun p q : Int × ORow => decide (p.1 ≤ q.1))
              have hkeys := (decorate_ok "bytes" t.rows dec hdec).2
              have hdec2 : decorate "bytes"
                  ((dec.mergeSort (fun p q : Int × ORow => decide (p.1 ≤ q.1))).map
                    (fun p => p.2)) =
                  .ok (dec.mergeSort (fun p q : Int × ORow => decide (p.1 ≤ q.1))) :=
                decorate_of_pairs _ _ (fun p hp => hkeys p (hperm.mem_iff.mp hp))
              have hp2 : (dec.mergeSort
                  (fun p q : Int × ORow => decide (p.1 ≤ q.1))).Pairwise
                  (fun p q => p.1 ≤ q.1) :=
                (List.sorted_mergeSort leAsc_trans leAsc_total dec).imp
                  (fun hpq => of_decide_eq_true hpq)
              exact checkOrder_noop _
                (fun hb2 _ => absurd hb2 hnbits)
                (fun _ _ => checkOrderWith_sorted_asc "bytes" _ _ hdec2 hp2)
      · rw [if_neg hcy] at h
        injection h with h6
        injection h6 with h7 h8
        subst h7
        subst h8
        exact horig

/-- C5, counterexample: `c5Table` carries both headings and is already
sorted descending by `bits`, yet `check_order` re-sorts it ascending by
`bytes` with a warning; a second run re-sorts it back descending by `bits`
with another warning.  Neither the fixed-point half nor the
twice-equals-once half of the original claim holds. -/
theorem c5_counterexample :
    decorate "bits" c5Table.rows =
      .ok [(1, [("bits", [1]), ("bytes", [5])]),
           (0, [("bits", [0]), ("bytes", [3])])] ∧
    List.Pairwise (fun p q : Int × ORow => q.1 ≤ p.1)
      [((1 : Int), ([("bits", [1]), ("bytes", [5])] : ORow)),
       ((0 : Int), ([("bits", [0]), ("bytes", [3])] : ORow))] ∧
    checkOrder c5Table = .ok (c5TableSwapped, ["t: bytes are in wrong order"]) ∧
    checkOrder c5TableSwapped = .ok (c5Table, ["t: bits are in wrong order"]) ∧
    c5TableSwapped ≠ c5Table := by
  have hdb : decorate "bits" c5Table.rows =
      .ok [(1, [("bits", [1]), ("bytes", [5])]),
           (0, [("bits", [0]), ("bytes", [3])])] := rfl
  have hdy : decorate "bytes" c5Table.rows =
      .ok [(5, [("bits", [1]), ("bytes", [5])]),
           (3, [("bits", [0]), ("bytes", [3])])] := rfl
  have hdb2 : decorate "bits" c5TableSwapped.rows =
      .ok [(0, [("bits", [0]), ("bytes", [3])]),
           (1, [("bits", [1]), ("bytes", [5])])] := rfl
  have hmsY : List.mergeSort
      [((5 : Int), ([("bits", [1]), ("bytes", [5])] : ORow)),
       ((3 : Int), ([("bits", [0]), ("bytes", [3])] : ORow))]
      (fun p q : Int × ORow => decide (p.1 ≤ q.1)) =
      [(3, [("bits", [0]), ("bytes", [3])]), (5, [("bits", [1]), ("bytes", [5])])] := by
    simp [List.mergeSort, List.merge]
  have hmsB : List.mergeSort
      [((0 : Int), ([("bits", [0]), ("bytes", [3])] : ORow)),
       ((1 : Int), ([("bits", [1]), ("bytes", [5])] : ORow))]
      (fun p q : Int × ORow => decide (q.1 ≤ p.1)) =
      [(1, [("bits", [1]), ("bytes", [5])]), (0, [("bits", [0]), ("bytes", [3])])] := by
    simp [List.mergeSort, List.merge]
  refine ⟨hdb, by decide, ?_, ?_, by decide⟩
  · unfold checkOrder
    rw [if_pos (show "bits" ∈ c5Table.headings ∧ 1 < c5Table.rows.length by decide),
      checkOrderWith_sorted_desc "bits" c5Table.rows _ hdb (by decide)]
    show checkOrderBytes c5Table = _
    unfold checkOrderBytes
    rw [if_pos (show "bytes" ∈ c5Table.headings ∧ 1 < c5Table.rows.length by decide)]
    have hcw : checkOrderWith "bytes" false c5Table.rows =
        .ok (c5TableSwapped.rows, true) := by
      simp only [checkOrderWith, hdy, Bool.false_eq_true, if_false]
      rw [hmsY]
      rfl
    rw [hcw]
    rfl
  · unfold checkOrder
    rw [if_pos (show "bits" ∈ c5TableSwapped.headings ∧
      1 < c5TableSwapped.rows.length by decide)]
    have hcw : checkOrderWith "bits" true c5TableSwapped.rows =
        .ok (c5Table.rows, true) := by
      simp only [checkOrderWith, hdb2, if_true]
      rw [hmsB]
      rfl
    rw [hcw]
    rfl

/-- C5, witness: a bits-only two-row table already sorted descending is
left untouched with no warning. -/
theorem c5_witness :
    "bits" ∈ (OTable.mk "t" ["bits"]
      [[("bits", [31, 16])], [("bits", [15, 8])]]).headings ∧
    checkOrder (OTable.mk "t" ["bits"] [[("bits", [31, 16])], [("bits", [15, 8])]]) =
      .ok (OTable.mk "t" ["bits"] [[("bits", [31, 16])], [("bits", [15, 8])]], []) := by
  refine ⟨by decide, ?_⟩
  exact (c5_checkOrder_amended
      (OTable.mk "t" ["bits"] [[("bits", [31, 16])], [("bits", [15, 8])]])).1
    [(31, [("bits", [31, 16])]), (15, [("bits", [15, 8])])] []
    (fun _ => ⟨rfl, by decide⟩)
    (fun hby => absurd hby (by decide))
/-- A blank-leading row leaves an empty output empty (whether it becomes the
secondary headings or is dropped), and cannot raise. -/
theorem parseContentStep_blankLead (headings : List String) (s : PCState)
    (row : List String)
    (hnest : (row.take headings.length).all (fun v => v = "") = true)
    (hout : s.output = []) :
    ∃ s2, parseContentStep headings s row = .ok s2 ∧ s2.output = [] := by
  unfold parseContentStep
  by_cases hall : row.all (fun v => v = "") = true
  · exact ⟨s, by simp [hall], hout⟩
  · cases hsub : s.subheadings with
    | none =>
      refine ⟨{ s with subheadings := some (parseHeadings row) }, ?_, hout⟩
      simp [hall, hnest, hsub]
    | some sh =>
      refine ⟨s, ?_, hout⟩
      simp [hall, hnest, hsub, hout]

/-- C10: in `parse_content`, a nested (blank-leading) data row arriving
while no top-level row exists is silently discarded (state unchanged, no
exception); when top-level rows exist, the parsed child row is appended to
the children of the most recent top-level record only; and a table whose
rows are all blank-leading parses to no output at all. -/
theorem c10_parseContent_nested (headings : List String) :
    (∀ (s : PCState) (row : List String) (sh : List String),
      s.subheadings = some sh → s.output = [] →
      (row.take headings.length).all (fun v => v = "") = true →
      parseContentStep headings s row = .ok s) ∧
    (∀ (s : PCState) (row : List String) (sh : List String)
        (out : List FieldRecord) (last child : FieldRecord),
      s.subheadings = some sh → sh ≠ [] →
      (row.take headings.length).all (fun v => v = "") = true →
      ¬ (row.all (fun v => v = "") = true) →
      s.output = out ++ [last] →
      parseRow row sh headings.length = .ok child →
      parseContentStep headings s row =
        .ok { output := out ++ [FieldRecord.mk last.fields (last.children ++ [child])],
              subheadings := some sh }) ∧
    (∀ rows : List (List String),
      (∀ r ∈ rows, (r.take headings.length).all (fun v => v = "") = true) →
      parseContent headings rows = .ok []) := by
  have hblank : ∀ (rows : List (List String)) (s : PCState),
      (∀ r ∈ rows, (r.take headings.length).all (fun v => v = "") = true) →
      s.output = [] →
      ∃ s2, foldlExcept (parseContentStep headings) s rows = .ok s2 ∧ s2.output = [] := by
    intro rows
    induction rows with
    | nil => exact fun s _ hout => ⟨s, rfl, hout⟩
    | cons r rest ih =>
      intro s hall hout
      obtain ⟨s1, hs1, hs1out⟩ :=
        parseContentStep_blankLead headings s r (hall r (by simp)) hout
      obtain ⟨s2, hs2, hs2out⟩ := ih s1 (fun x hx => hall x (by simp [hx])) hs1out
      exact ⟨s2, by simp only [foldlExcept, hs1, hs2], hs2out⟩
  refine ⟨?_, ?_, ?_⟩
  · intro s row sh hsub hout hnest
    unfold parseContentStep
    by_cases hall : row.all (fun v => v = "") = true
    · simp [hall]
    · simp [hall, hnest, hsub, hout]
  · intro s row sh out last child hsub hshne hnest hnall hout hpr
    unfold parseContentStep
    have hsout : s.output.isEmpty = false := by
      rw [hout]
      simp
    simp only [hnall, if_false, hnest, if_true, hsub, hsout]
    have hshe : sh.isEmpty = false := by
      cases sh with
      | nil => exact absurd rfl hshne
      | cons a l => rfl
    simp only [hshe, Bool.not_false, if_true, hpr, Bool.not_true]
    have happ : appendChildToLast s.output child =
        out ++ [FieldRecord.mk last.fields (last.children ++ [child])] := by
      unfold appendChildToLast
      rw [hout, List.getLast?_concat, List.dropLast_concat]
    simp [happ, hsub]
  · intro rows hall
    obtain ⟨s2, hs2, hs2out⟩ :=
      hblank rows { output := [], subheadings := none } hall rfl
    unfold parseContent
    simp only [hs2, hs2out]

/-- C10, witness: a sub-heading row followed by a nested data row, with no
top-level row anywhere — the output is empty and nothing is raised. -/
theorem c10_witness :
    (∀ r ∈ [["", "", "sub1", "sub2"], ["", "", "a", "b"]],
      ((List.take (["bits", "description"] : List String).length r).all
        (fun v => v = "")) = true) ∧
    parseContent ["bits", "description"] [["", "", "sub1", "sub2"], ["", "", "a", "b"]] =
      .ok [] := by
  refine ⟨by decide, ?_⟩
  exact (c10_parseContent_nested ["bits", "description"]).2.2
    [["", "", "sub1", "sub2"], ["", "", "a", "b"]] (by decide)

/-- A map whose body is pointwise successful. -/
theorem mapExcept_total {α β : Type} (f : α → Except String β) (g : α → β)
    (l : List α) (h : ∀ x ∈ l, f x = .ok (g x)) :
    mapExcept f l = .ok (l.map g) := by
  induction l with
  | nil => rfl
  | cons x xs ih =>
    simp only [mapExcept, h x (by simp), ih (fun y hy => h y (by simp [hy])),
      List.map_cons]

/-- A filter whose predicate is pointwise successful. -/
theorem filterExcept_total {α : Type} (p : α → Except String Bool) (q : α → Bool)
    (l : List α) (h : ∀ x ∈ l, p x = .ok (q x)) :
    filterExcept p l = .ok (l.filter q) := by
  induction l with
  | nil => rfl
  | cons x xs ih =>
    simp only [filterExcept, h x (by simp), ih (fun y hy => h y (by simp [hy])),
      List.filter_cons]

/-- A value matching the plain hex regex cannot match the hex range regex. -/
theorem hexValue_not_range (s : String) (h : hexValueMatch s = true) :
    hexRangeMatch s = false := by
  unfold hexValueMatch at h
  unfold hexRangeMatch
  simp only [Bool.and_eq_true, decide_eq_true_eq] at h
  obtain ⟨hne, hdrop⟩ := h
  simp [hdrop]

/-- A hex digit (of the uppercase class) is not the letter `h`. -/
theorem isHexUC_ne_h (c : Char) (h : isHexUC c = true) : c ≠ 'h' := by
  intro he
  subst he
  exact absurd h (by decide)

/-- On a value matching the plain hex regex, `strip("h")` removes exactly
the final `h`. -/
theorem pyStripH_of_hexValue (s : String) (h : hexValueMatch s = true) :
    pyStripH s = String.mk s.data.dropLast := by
  unfold hexValueMatch at h
  simp only [Bool.and_eq_true, decide_eq_true_eq] at h
  obtain ⟨hne, hdrop⟩ := h
  have htake : s.data.take (s.data.takeWhile isHexUC).length = s.data.takeWhile isHexUC :=
    (List.prefix_iff_eq_take.mp (List.takeWhile_prefix _)).symm
  have hsplit : s.data = s.data.takeWhile isHexUC ++ ['h'] := by
    conv_lhs => rw [← List.take_append_drop (s.data.takeWhile isHexUC).length s.data]
    rw [htake, hdrop]
  have hnoh : ∀ c ∈ s.data.takeWhile isHexUC, (decide (c = 'h')) = false := by
    intro c hc
    exact decide_eq_false (isHexUC_ne_h c (List.mem_takeWhile_imp hc))
  unfold pyStripH
  rw [hsplit, List.dropLast_concat]
  congr 1
  cases hds : s.data.takeWhile isHexUC with
  | nil =>
    rw [hds] at hne
    cases hne
  | cons d dtl =>
    rw [hds] at hnoh
    have hd : (decide (d = 'h')) = false := hnoh d (by simp)
    have h1 : ((d :: dtl) ++ ['h']).dropWhile (fun c => decide (c = 'h'))
        = (d :: dtl) ++ ['h'] := by
      rw [List.cons_append, List.dropWhile_cons]
      simp [hd]
    rw [h1]
    have h2 : ((d :: dtl) ++ ['h']).reverse = 'h' :: (d :: dtl).reverse := by simp
    rw [h2]
    have h3 : List.dropWhile (fun c => decide (c = 'h')) ('h' :: (d :: dtl).reverse)
        = List.dropWhile (fun c => decide (c = 'h')) ((d :: dtl).reverse) := by
      rw [List.dropWhile_cons]
      simp
    rw [h3]
    rw [dropWhile_eq_self_of_not ((d :: dtl).reverse)
      (fun c hc => hnoh c (List.mem_reverse.mp hc))]
    exact List.reverse_reverse _


/-- `"hex-" in ("hex-" + h)` always holds. -/
theorem strContains_hex_append (h : String) :
    strContains "hex-" ("hex-" ++ h) = true := by
  unfold strContains listContainsSub
  rw [List.any_eq_true]
  refine ⟨("hex-" ++ h).data, (List.mem_tails _ _).mpr (List.suffix_refl _), ?_⟩
  rw [List.isPrefixOf_iff_prefix, String.data_append]
  exact List.prefix_append _ _

/-- Prefixing with `hex-` is injective. -/
theorem hexAppend_inj (a b : String) (h : "hex-" ++ a = "hex-" ++ b) : a = b := by
  have hd : ("hex-" ++ a).data = ("hex-" ++ b).data := by rw [h]
  rw [String.data_append, String.data_append] at hd
  have h2 := List.append_cancel_left hd
  cases a
  cases b
  exact congrArg String.mk h2

/-- `find?` looking for the unique heading whose `hex-` image is `k`. -/
theorem find_hex_self (D : List String) (h : String) (hmem : h ∈ D) :
    D.find? (fun n => "hex-" ++ h = "hex-" ++ n) = some h := by
  induction D with
  | nil => cases hmem
  | cons d rest ih =>
    by_cases hd : "hex-" ++ h = "hex-" ++ d
    · have : h = d := hexAppend_inj _ _ hd
      subst this
      rw [List.find?_cons_of_pos]
      simp
    · rw [List.find?_cons_of_neg _ (by simpa using hd)]
      rcases List.mem_cons.mp hmem with rfl | hmem2
      · exact absurd rfl hd
      · exact ih hmem2

/-- The rename body succeeds on a row holding the old key, producing the
total rename. -/
theorem renameInRow_total (old : String) (r : HRow) (v : HVal) (hv : r old = some v) :
    renameInRow old r = .ok (renameTotal old r) := by
  unfold renameInRow renameTotal
  rw [hv]

/-- The reformat body succeeds on a row holding a string at the heading,
producing the total reformat. -/
theorem hexReformatRow_total (h : String) (r : HRow) (s : String)
    (hv : r h = some (.str s)) :
    hexReformatRow h r = .ok (reformatAt h r) := by
  unfold hexReformatRow reformatAt
  rw [hv]

/-- Pointwise behaviour of a chain of renames over pairwise distinct
headings none of which is the `hex-` image of another. -/
theorem renameList_apply (names : List String) (hnd : names.Nodup)
    (hnh : ∀ n ∈ names, ∀ m ∈ names, "hex-" ++ n ≠ m) (r : HRow) (k : String) :
    renameList names r k =
      (match names.find? (fun n => k = "hex-" ++ n) with
       | some n => r n
       | none => if k ∈ names then none else r k) := by
  induction names generalizing r with
  | nil => simp [renameList]
  | cons n ns ih =>
    have hnmem : n ∉ ns := (List.nodup_cons.mp hnd).1
    have hstep : renameList (n :: ns) r = renameList ns (renameTotal n r) := rfl
    rw [hstep, ih (List.nodup_cons.mp hnd).2
      (fun x hx y hy => hnh x (by simp [hx]) y (by simp [hy])) (renameTotal n r)]
    by_cases hk : k = "hex-" ++ n
    · subst hk
      rw [List.find?_cons_of_pos _ (by simp)]
      have hfind : ns.find? (fun m => "hex-" ++ n = "hex-" ++ m) = none := by
        rw [List.find?_eq_none]
        intro m hm hdec
        have h2 := hexAppend_inj _ _ (of_decide_eq_true hdec)
        subst h2
        exact hnmem hm
      rw [hfind]
      have hnotin : ("hex-" ++ n) ∉ ns := fun hmem =>
        hnh n (by simp) ("hex-" ++ n) (by simp [hmem]) rfl
      rw [if_neg hnotin]
      unfold renameTotal
      rw [if_neg (hnh n (by simp) n (by simp)), if_pos rfl]
    · rw [List.find?_cons_of_neg _ (by simpa using hk)]
      cases hfind : ns.find? (fun m => k = "hex-" ++ m) with
      | some m =>
        have hmmem : m ∈ ns := List.mem_of_find?_eq_some hfind
        have hmn : ¬ m = n := fun he => hnmem (he ▸ hmmem)
        show renameTotal n r m = r m
        unfold renameTotal
        rw [if_neg hmn, if_neg (Ne.symm (hnh n (by simp) m (by simp [hmmem])))]
      | none =>
        show (if k ∈ ns then none else renameTotal n r k) =
          (if k ∈ n :: ns then none else r k)
        by_cases hkn : k = n
        · subst hkn
          rw [if_neg hnmem, if_pos (by simp)]
          unfold renameTotal
          rw [if_pos rfl]
        · have hmem_iff : (k ∈ n :: ns) ↔ (k ∈ ns) := by
            simp [List.mem_cons, hkn]
          by_cases hkns : k ∈ ns
          · rw [if_pos hkns, if_pos (hmem_iff.mpr hkns)]
          · rw [if_neg hkns, if_neg (fun hc => hkns (hmem_iff.mp hc))]
            unfold renameTotal
            rw [if_neg hkn, if_neg hk]

/-- Shape of the headings produced by the index-set rename fold:
position-wise, a heading is `hex-`-prefixed exactly when its index was
collected. -/
theorem applySets_getElem (idxs : List Nat) (hs : List String) (hnd : idxs.Nodup)
    (hlt : ∀ i ∈ idxs, i < hs.length) (n : Nat) :
    (idxs.foldl (fun hs i => hs.set i ("hex-" ++ hs.getD i "")) hs)[n]? =
      if n ∈ idxs then (hs[n]?).map (fun h => "hex-" ++ h) else hs[n]? := by
  induction idxs generalizing hs with
  | nil => simp
  | cons i is ih =>
    have hinotis : i ∉ is := (List.nodup_cons.mp hnd).1
    have hilt : i < hs.length := hlt i (by simp)
    rw [List.foldl_cons]
    rw [ih (hs.set i ("hex-" ++ hs.getD i "")) (List.nodup_cons.mp hnd).2
      (fun j hj => by rw [List.length_set]; exact hlt j (by simp [hj]))]
    by_cases hni : n = i
    · subst hni
      rw [if_neg (fun hc => hinotis hc), if_pos (by simp)]
      rw [List.getElem?_set_self hilt]
      rw [List.getD_eq_getElem?_getD]
      rw [List.getElem?_eq_getElem hilt]
      simp
    · rw [List.getElem?_set_ne (fun he => hni he.symm)]
      by_cases hnis : n ∈ is
      · rw [if_pos hnis, if_pos (by simp [hnis])]
      · rw [if_neg hnis, if_neg (by simp [hni, hnis])]

/-- Renaming the collected indices turns the heading list into its
per-element rename image. -/
theorem applySets_eq_map (hs : List String) (p : String → Bool) :
    ((List.range hs.length).filter (fun i => p (hs.getD i ""))).foldl
      (fun hs2 i => hs2.set i ("hex-" ++ hs2.getD i "")) hs =
    hs.map (fun h => if p h then "hex-" ++ h else h) := by
  apply List.ext_getElem?
  intro n
  rw [applySets_getElem _ _ ((List.nodup_range _).filter _)
    (fun i hi => List.mem_range.mp (List.mem_filter.mp hi).1) n]
  rw [List.getElem?_map]
  by_cases hn : n < hs.length
  · have hget : hs[n]? = some hs[n] := List.getElem?_eq_getElem hn
    have hgetD : hs.getD n "" = hs[n] := by
      rw [List.getD_eq_getElem?_getD, hget]
      rfl
    have hmem : n ∈ (List.range hs.length).filter (fun i => p (hs.getD i "")) ↔
        p hs[n] = true := by
      rw [List.mem_filter, List.mem_range, hgetD]
      exact ⟨fun h => h.2, fun h => ⟨hn, h⟩⟩
    by_cases hp : p hs[n] = true
    · rw [if_pos (hmem.mpr hp), hget]
      simp [hp]
    · rw [if_neg (fun hc => hp (hmem.mp hc)), hget]
      simp [hp]
  · have hnone : hs[n]? = none := by
      rw [List.getElem?_eq_none_iff]
      omega
    rw [hnone]
    by_cases hmem : n ∈ (List.range hs.length).filter (fun i => p (hs.getD i ""))
    · exact absurd (List.mem_range.mp (List.mem_filter.mp hmem).1) hn
    · rw [if_neg hmem]
      rfl

/-- The collected indices name exactly the headings passing the test, in
order. -/
theorem filter_range_map_getD {α : Type} (d : α) (hs : List α) (p : α → Bool) :
    ((List.range hs.length).filter (fun i => p (hs.getD i d))).map (fun i => hs.getD i d) =
      hs.filter p := by
  induction hs with
  | nil => simp
  | cons h t ih =>
    have hstep1 : (List.range (h :: t).length).filter (fun i => p ((h :: t).getD i d)) =
        if p h then 0 :: ((List.range t.length).filter (fun i => p (t.getD i d))).map Nat.succ
        else ((List.range t.length).filter (fun i => p (t.getD i d))).map Nat.succ := by
      rw [List.length_cons, List.range_succ_eq_map, List.filter_cons, List.filter_map]
      rfl
    rw [hstep1]
    by_cases hp : p h = true
    · rw [if_pos hp, List.filter_cons, if_pos hp, List.map_cons, List.map_map]
      exact congrArg (fun l => h :: l) ih
    · rw [if_neg hp, List.filter_cons, if_neg hp, List.map_map]
      exact ih

/-- `getD` is unchanged at other positions by `set`. -/
theorem getD_set_ne {α : Type} (l : List α) (i j : Nat) (x d : α) (h : i ≠ j) :
    (l.set i x).getD j d = l.getD j d := by
  rw [List.getD_eq_getElem?_getD, List.getD_eq_getElem?_getD, List.getElem?_set_ne h]

/-- Characterization of the rename fold of `detect_hex_columns`: on distinct
in-range indices naming pairwise distinct headings (none the `hex-` image of
another) whose keys are present in every row, it renames the headings at the
collected indices and applies the corresponding rename chain to every row. -/
theorem detectFold_spec (idxs : List Nat) (hs : List String) (rs : List HRow)
    (hnd : idxs.Nodup)
    (hlt : ∀ i ∈ idxs, i < hs.length)
    (hinj : ∀ i ∈ idxs, ∀ j ∈ idxs, i ≠ j → hs.getD i "" ≠ hs.getD j "")
    (hkey : ∀ i ∈ idxs, ∀ r ∈ rs, (r (hs.getD i "")).isSome = true)
    (hnh : ∀ i ∈ idxs, ∀ j ∈ idxs, "hex-" ++ hs.getD i "" ≠ hs.getD j "") :
    foldlExcept
      (fun st i =>
        let old := st.1.getD i ""
        match mapExcept (renameInRow old) st.2 with
        | .error e => .error e
        | .ok rs2 => .ok (st.1.set i ("hex-" ++ old), rs2))
      (hs, rs) idxs =
    .ok (idxs.foldl (fun hs2 i => hs2.set i ("hex-" ++ hs2.getD i "")) hs,
         rs.map (renameList (idxs.map (fun i => hs.getD i "")))) := by
  induction idxs generalizing hs rs with
  | nil =>
    simp only [foldlExcept, List.foldl_nil, List.map_nil]
    rw [(List.map_congr_left (fun r _ => (rfl : renameList [] r = r))).trans
      (List.map_id rs)]
  | cons i is ih =>
    have hInotis : i ∉ is := (List.nodup_cons.mp hnd).1
    have hlt_i : i < hs.length := hlt i (by simp)
    have hmapren : mapExcept (renameInRow (hs.getD i "")) rs =
        .ok (rs.map (renameTotal (hs.getD i ""))) := by
      apply mapExcept_total
      intro r hr
      obtain ⟨v, hv⟩ := Option.isSome_iff_exists.mp (hkey i (by simp) r hr)
      exact renameInRow_total _ _ _ hv
    simp only [foldlExcept, hmapren]
    have hpresD : ∀ j ∈ is, (hs.set i ("hex-" ++ hs.getD i "")).getD j "" = hs.getD j "" :=
      fun j hj => getD_set_ne hs i j _ "" (fun he => hInotis (he ▸ hj))
    rw [ih (hs.set i ("hex-" ++ hs.getD i "")) (rs.map (renameTotal (hs.getD i "")))
      (List.nodup_cons.mp hnd).2
      (fun j hj => by rw [List.length_set]; exact hlt j (by simp [hj]))
      (fun j hj j2 hj2 hne => by
        rw [hpresD j hj, hpresD j2 hj2]
        exact hinj j (by simp [hj]) j2 (by simp [hj2]) hne)
      (fun j hj r hr => by
        obtain ⟨r0, hr0, rfl⟩ := List.mem_map.mp hr
        rw [hpresD j hj]
        unfold renameTotal
        rw [if_neg (Ne.symm (hinj i (by simp) j (by simp [hj])
          (fun he => hInotis (he ▸ hj))))]
        rw [if_neg (Ne.symm (hnh i (by simp) j (by simp [hj])))]
        exact hkey j (by simp [hj]) r0 hr0)
      (fun j hj j2 hj2 => by
        rw [hpresD j hj, hpresD j2 hj2]
        exact hnh j (by simp [hj]) j2 (by simp [hj2]))]
    have hnames : is.map (fun j => (hs.set i ("hex-" ++ hs.getD i "")).getD j "") =
        is.map (fun j => hs.getD j "") :=
      List.map_congr_left (fun j hj => hpresD j hj)
    rw [hnames, List.foldl_cons, List.map_cons, List.map_map]
    rfl

/-- `all` only depends on the predicate pointwise. -/
theorem allCongr {α : Type} (l : List α) (p q : α → Bool)
    (h : ∀ x ∈ l, p x = q x) : l.all p = l.all q := by
  induction l with
  | nil => rfl
  | cons x xs ih =>
    rw [List.all_cons, List.all_cons, h x (by simp), ih (fun y hy => h y (by simp [hy]))]

/-- The boolean combination of the two `clean_hex` filters at one heading. -/
theorem hexFilters_combine (s : String) :
    (!hexRangeMatch s && (hexValueMatch s || hexRangeMatch s)) = hexValueMatch s := by
  cases hval : hexValueMatch s
  · cases hrange : hexRangeMatch s <;> simp
  · rw [hexValue_not_range s hval]
    simp

/-- Reformatting at one heading then at the rest is reformatting at all. -/
theorem reformat_comp (h : String) (t : List String) (hnotin : h ∉ t) (r : HRow) :
    reformatAll t (reformatAt h r) = reformatAll (h :: t) r := by
  funext k
  show reformatAll t (reformatAt h r) k = reformatAll (h :: t) r k
  unfold reformatAll
  by_cases hkt : k ∈ t
  · have hkh : ¬ k = h := fun he => hnotin (he ▸ hkt)
    rw [if_pos hkt, if_pos (show k ∈ h :: t by simp [hkt])]
    have hat : reformatAt h r k = r k := by
      unfold reformatAt
      rw [if_neg hkh]
    rw [hat]
  · by_cases hkh : k = h
    · subst hkh
      rw [if_neg hkt, if_pos (show k ∈ k :: t by simp)]
      unfold reformatAt
      rw [if_pos rfl]
    · rw [if_neg hkt, if_neg (show ¬ k ∈ h :: t by simp [hkh, hkt])]
      unfold reformatAt
      rw [if_neg hkh]

/-- The per-heading cleanup fold of `clean_hex`: over pairwise distinct
headings whose values are strings in every row, it keeps exactly the rows
whose value matches the plain hex pattern under every heading and reformats
those values. -/
theorem hexFold_spec (hhs : List String) (rs : List HRow)
    (hnd : hhs.Nodup)
    (hstr : ∀ h ∈ hhs, ∀ r ∈ rs, ∃ s, r h = some (HVal.str s)) :
    foldlExcept
      (fun rs2 h =>
        match filterExcept (hexKeepRow h) rs2 with
        | .error e => .error e
        | .ok rs3 =>
          match filterExcept (hexNotRange h) rs3 with
          | .error e => .error e
          | .ok rs4 => mapExcept (hexReformatRow h) rs4)
      rs hhs =
    .ok ((rs.filter (fun r => hhs.all (strValMatches r))).map (reformatAll hhs)) := by
  induction hhs generalizing rs with
  | nil =>
    simp only [foldlExcept]
    have h1 : rs.filter (fun r => ([] : List String).all (strValMatches r)) = rs := by
      have he : (fun r : HRow => ([] : List String).all (strValMatches r)) =
          (fun _ => true) := by
        funext r
        simp
      rw [he, List.filter_true]
    rw [h1]
    have h2 : ∀ r : HRow, reformatAll [] r = r := by
      intro r
      funext k
      simp [reformatAll]
    rw [List.map_congr_left (fun r _ => h2 r)]
    rw [show List.map (fun r : HRow => r) rs = rs from List.map_id rs]
  | cons h t ih =>
    have hnotin : h ∉ t := (List.nodup_cons.mp hnd).1
    have hf1 : filterExcept (hexKeepRow h) rs =
        .ok (rs.filter (fun r =>
          match r h with
          | some (HVal.str s) => hexValueMatch s || hexRangeMatch s
          | _ => false)) := by
      apply filterExcept_total
      intro r hr
      obtain ⟨s, hs⟩ := hstr h (by simp) r hr
      unfold hexKeepRow
      simp only [hs]
    have hf2 : filterExcept (hexNotRange h)
        (rs.filter (fun r =>
          match r h with
          | some (HVal.str s) => hexValueMatch s || hexRangeMatch s
          | _ => false)) =
        .ok ((rs.filter (fun r =>
          match r h with
          | some (HVal.str s) => hexValueMatch s || hexRangeMatch s
          | _ => false)).filter (fun r =>
          match r h with
          | some (HVal.str s) => !hexRangeMatch s
          | _ => false)) := by
      apply filterExcept_total
      intro r hr
      obtain ⟨s, hs⟩ := hstr h (by simp) r (List.mem_of_mem_filter hr)
      unfold hexNotRange
      simp only [hs]
    have hff : (rs.filter (fun r =>
          match r h with
          | some (HVal.str s) => hexValueMatch s || hexRangeMatch s
          | _ => false)).filter (fun r =>
          match r h with
          | some (HVal.str s) => !hexRangeMatch s
          | _ => false) =
        rs.filter (fun r => strValMatches r h) := by
      rw [List.filter_filter]
      apply List.filter_congr
      intro r hr
      obtain ⟨s, hs⟩ := hstr h (by simp) r hr
      unfold strValMatches
      simp only [hs]
      exact hexFilters_combine s
    have hmap : mapExcept (hexReformatRow h) (rs.filter (fun r => strValMatches r h)) =
        .ok ((rs.filter (fun r => strValMatches r h)).map (reformatAt h)) := by
      apply mapExcept_total
      intro r hr
      obtain ⟨s, hs⟩ := hstr h (by simp) r (List.mem_of_mem_filter hr)
      exact hexReformatRow_total h r s hs
    simp only [foldlExcept, hf1, hf2, hff, hmap]
    have hstr2 : ∀ h2 ∈ t, ∀ r2 ∈ (rs.filter (fun r => strValMatches r h)).map (reformatAt h),
        ∃ s, r2 h2 = some (HVal.str s) := by
      intro h2 hh2 r2 hr2
      obtain ⟨r0, hr0, rfl⟩ := List.mem_map.mp hr2
      have hne : ¬ h2 = h := fun he => hnotin (he ▸ hh2)
      obtain ⟨s, hs⟩ := hstr h2 (by simp [hh2]) r0 (List.mem_of_mem_filter hr0)
      refine ⟨s, ?_⟩
      unfold reformatAt
      rw [if_neg hne]
      exact hs
    rw [ih ((rs.filter (fun r => strValMatches r h)).map (reformatAt h))
      (List.nodup_cons.mp hnd).2 hstr2]
    congr 1
    rw [List.filter_map]
    have hfcongr : (rs.filter (fun r => strValMatches r h)).filter
        ((fun r => t.all (strValMatches r)) ∘ reformatAt h) =
        (rs.filter (fun r => strValMatches r h)).filter (fun r => t.all (strValMatches r)) := by
      apply List.filter_congr
      intro r hr
      show t.all (strValMatches (reformatAt h r)) = t.all (strValMatches r)
      apply allCongr
      intro h2 hh2
      have hne : ¬ h2 = h := fun he => hnotin (he ▸ hh2)
      unfold strValMatches reformatAt
      rw [if_neg hne]
    rw [hfcongr, List.filter_filter]
    have hfcomb : rs.filter (fun r => (t.all (strValMatches r) && strValMatches r h)) =
        rs.filter (fun r => (h :: t).all (strValMatches r)) := by
      apply List.filter_congr
      intro r hr
      rw [List.all_cons, Bool.and_comm]
    rw [hfcomb, List.map_map]
    exact List.map_congr_left (fun r hr => reformat_comp h t hnotin r)

/-- `getD` agrees with `getElem` in range. -/
theorem getD_eq_getElem_str (hs : List String) (i : Nat) (h : i < hs.length) :
    hs.getD i "" = hs[i] := by
  rw [List.getD_eq_getElem?_getD, List.getElem?_eq_getElem h]
  rfl

/-- Characterization of `detect_hex_columns` on a table whose rows hold
string values under every heading, with pairwise distinct headings none of
which already contains `hex-`: every heading with at least one matching row
value is renamed to its `hex-` image (in the heading list and, via the
rename chain, in every row), everything else is untouched. -/
theorem detectHexColumns_spec (headings : List String) (rows : List HRow)
    (H1 : ∀ h ∈ headings, ∀ r ∈ rows, ∃ s, r h = some (HVal.str s))
    (H2 : headings.Nodup)
    (H3 : ∀ h ∈ headings, strContains "hex-" h = false) :
    detectHexColumns headings rows =
      .ok (headings.map (fun h => if hexDetected rows h then "hex-" ++ h else h),
           rows.map (renameList (headings.filter (hexDetected rows)))) := by
  have hmemD : ∀ i, i < headings.length → headings.getD i "" ∈ headings := by
    intro i hi
    rw [getD_eq_getElem_str headings i hi]
    exact List.getElem_mem hi
  have hlt : ∀ i ∈ (List.range headings.length).filter
      (fun i => rows.any (fun r => rowMatchesHeading r (headings.getD i ""))),
      i < headings.length :=
    fun i hi => List.mem_range.mp (List.mem_filter.mp hi).1
  unfold detectHexColumns hexDetected
  rw [detectFold_spec
    ((List.range headings.length).filter
      (fun i => rows.any (fun r => rowMatchesHeading r (headings.getD i ""))))
    headings rows
    ((List.nodup_range _).filter _)
    hlt
    (by
      intro i hi j hj hne
      rw [getD_eq_getElem_str headings i (hlt i hi), getD_eq_getElem_str headings j (hlt j hj)]
      exact fun he => hne (H2.getElem_inj_iff.mp he))
    (by
      intro i hi r hr
      obtain ⟨s, hs⟩ := H1 _ (hmemD i (hlt i hi)) r hr
      rw [hs]
      rfl)
    (by
      intro i hi j hj he
      have h1 := strContains_hex_append (headings.getD i "")
      rw [he] at h1
      rw [H3 _ (hmemD j (hlt j hj))] at h1
      cases h1)]
  rw [applySets_eq_map headings (fun h => rows.any (fun r => rowMatchesHeading r h))]
  rw [filter_range_map_getD "" headings (fun h => rows.any (fun r => rowMatchesHeading r h))]

/-- The renamed-and-reformatted row is exactly the claim's row
transformation. -/
theorem hexSpec_comp (D : List String) (hDnd : D.Nodup)
    (hDnh : ∀ n ∈ D, ∀ m ∈ D, "hex-" ++ n ≠ m) (r : HRow) :
    reformatAll (D.map (fun h => "hex-" ++ h)) (renameList D r) = hexSpecRow D r := by
  funext k
  show reformatAll (D.map (fun h => "hex-" ++ h)) (renameList D r) k = hexSpecRow D r k
  unfold reformatAll hexSpecRow
  have hrn := renameList_apply D hDnd hDnh r k
  cases hfind : D.find? (fun n => k = "hex-" ++ n) with
  | some n =>
    have hmemn : n ∈ D := List.mem_of_find?_eq_some hfind
    have hp := List.find?_some hfind
    have hkn : k = "hex-" ++ n := of_decide_eq_true hp
    rw [if_pos (by rw [List.mem_map]; exact ⟨n, hmemn, hkn.symm⟩)]
    rw [hrn, hfind]
  | none =>
    have hknot : k ∉ D.map (fun h => "hex-" ++ h) := by
      intro hmem
      obtain ⟨n0, hn0, hkn0⟩ := List.mem_map.mp hmem
      have := List.find?_eq_none.mp hfind n0 hn0
      exact this (decide_eq_true hkn0.symm)
    rw [if_neg hknot, hrn, hfind]

/-- C4: `clean_hex` renames a heading to its `hex-` image (in the heading
list and in every row) iff at least one row value under it matches one of
the two hex patterns; under the detected headings, rows whose value matches
neither pattern are dropped, rows matching the range pattern are also
dropped, and every surviving value is reformatted from `<digits>h` to
`0x<digits>` (`strip("h")` removes exactly the trailing `h` on a matching
value; in particular `20h` becomes `0x20`).  Hypotheses: every row holds a
string under every heading, the headings are pairwise distinct, and none
already contains `hex-`. -/
theorem c4_cleanHex_spec (headings : List String) (rows : List HRow)
    (H1 : ∀ h ∈ headings, ∀ r ∈ rows, ∃ s, r h = some (HVal.str s))
    (H2 : headings.Nodup)
    (H3 : ∀ h ∈ headings, strContains "hex-" h = false) :
    (cleanHex headings rows =
      .ok (headings.map (fun h => if hexDetected rows h then "hex-" ++ h else h),
           (rows.filter (hexSurvives (headings.filter (hexDetected rows)))).map
             (hexSpecRow (headings.filter (hexDetected rows))))) ∧
    (∀ s, hexValueMatch s = true → "0x" ++ pyStripH s = "0x" ++ String.mk s.data.dropLast) := by
  refine ⟨?_, fun s hs => by rw [pyStripH_of_hexValue s hs]⟩
  have hDnd : (headings.filter (hexDetected rows)).Nodup := H2.filter _
  have hDsub : ∀ h ∈ headings.filter (hexDetected rows), h ∈ headings :=
    fun h hh => (List.mem_filter.mp hh).1
  have hDnh : ∀ n ∈ headings.filter (hexDetected rows),
      ∀ m ∈ headings.filter (hexDetected rows), "hex-" ++ n ≠ m := by
    intro n hn m hm he
    have h1 := strContains_hex_append n
    rw [he, H3 m (hDsub m hm)] at h1
    cases h1
  unfold cleanHex
  simp only [detectHexColumns_spec headings rows H1 H2 H3]
  have hheads : (headings.map (fun h => if hexDetected rows h then "hex-" ++ h else h)).filter
      (fun h2 => strContains "hex-" h2) =
      (headings.filter (hexDetected rows)).map (fun h => "hex-" ++ h) := by
    rw [List.filter_map]
    have hc : headings.filter ((fun h2 => strContains "hex-" h2) ∘
        (fun h => if hexDetected rows h then "hex-" ++ h else h)) =
        headings.filter (hexDetected rows) := by
      apply List.filter_congr
      intro h hh
      show strContains "hex-" (if hexDetected rows h then "hex-" ++ h else h) =
        hexDetected rows h
      cases hd : hexDetected rows h
      · rw [if_neg (fun hc : false = true => nomatch hc), H3 h hh]
      · rw [if_pos rfl, strContains_hex_append]
    rw [hc]
    apply List.map_congr_left
    intro h hh
    rw [if_pos (List.mem_filter.mp hh).2]
  rw [hheads]
  have hstr2 : ∀ hh ∈ (headings.filter (hexDetected rows)).map (fun h => "hex-" ++ h),
      ∀ r2 ∈ rows.map (renameList (headings.filter (hexDetected rows))),
      ∃ s, r2 hh = some (HVal.str s) := by
    intro hh hhmem r2 hr2
    obtain ⟨h, hhD, rfl⟩ := List.mem_map.mp hhmem
    obtain ⟨r0, hr0, rfl⟩ := List.mem_map.mp hr2
    obtain ⟨s, hs⟩ := H1 h (hDsub h hhD) r0 hr0
    refine ⟨s, ?_⟩
    rw [renameList_apply _ hDnd hDnh, find_hex_self _ h hhD]
    exact hs
  rw [hexFold_spec _ _ (List.Nodup.map (fun a b hab => hexAppend_inj a b hab) hDnd) hstr2]
  rw [List.filter_map]
  have hsurv : rows.filter ((fun r =>
      ((headings.filter (hexDetected rows)).map (fun h => "hex-" ++ h)).all
        (strValMatches r)) ∘ renameList (headings.filter (hexDetected rows))) =
      rows.filter (hexSurvives (headings.filter (hexDetected rows))) := by
    apply List.filter_congr
    intro r hr
    show ((headings.filter (hexDetected rows)).map (fun h => "hex-" ++ h)).all
        (strValMatches (renameList (headings.filter (hexDetected rows)) r)) =
      hexSurvives (headings.filter (hexDetected rows)) r
    rw [List.all_map]
    unfold hexSurvives
    apply allCongr
    intro h hhD
    show strValMatches (renameList (headings.filter (hexDetected rows)) r) ("hex-" ++ h) = _
    unfold strValMatches
    rw [renameList_apply _ hDnd hDnh, find_hex_self _ h hhD]
  rw [hsurv, List.map_map]
  have hrows : (rows.filter (hexSurvives (headings.filter (hexDetected rows)))).map
      (reformatAll ((headings.filter (hexDetected rows)).map (fun h => "hex-" ++ h)) ∘
        renameList (headings.filter (hexDetected rows))) =
      (rows.filter (hexSurvives (headings.filter (hexDetected rows)))).map
        (hexSpecRow (headings.filter (hexDetected rows))) :=
    List.map_congr_left (fun r _ => hexSpec_comp _ hDnd hDnh r)
  rw [hrows]

/-- C4, witness: a single `value` column holding `20h` is detected, renamed
to `hex-value`, and its value reformatted to `0x20`. -/
theorem c4_witness :
    (["value"] : List String).Nodup ∧
    (cleanHex ["value"] [c4Row]).map
      (fun p => (p.1, p.2.map (fun r => r "hex-value"))) =
      .ok (["hex-value"], [some (HVal.str "0x20")]) := by
  have hH1 : ∀ h ∈ ["value"], ∀ r ∈ [c4Row], ∃ s, r h = some (HVal.str s) := by
    intro h hh r hr
    rw [List.mem_singleton] at hh hr
    subst hh
    subst hr
    exact ⟨"20h", rfl⟩
  have h := (c4_cleanHex_spec ["value"] [c4Row] hH1 (by decide) (by decide)).1
  refine ⟨by decide, ?_⟩
  rw [h]
  rfl
